import Mathlib

/-!
# Verification of the PathPal backend (`server.js`)

A shallow embedding of the PathPal Express backend's pure core: the CSV
field codec (`escapeCSV` / `parseCSVValue` and the two row scanners), the
flat-file accounts store (`readAccounts` / `writeAccounts` / `getAccount` /
`saveAccount`), the profile HTTP handlers, the catalog query endpoint
(`/api/colleges`), and the dataset cache (`getCollegeData`).

Strings are modelled as `List Char` at the scanning level (JavaScript
strings are sequences of UTF-16 units; all inputs of interest here are
plain text).  Wall-clock values (`new Date().toISOString()`, `Date.now()`)
are passed as explicit parameters.  Filesystem reads that may fail are
modelled as `Option` inputs; a throwing `fs.writeFileSync` is modelled as
a function returning `none`.
-/

namespace PathPal

/-- JavaScript `x || d` for strings: the empty string is falsy. -/
def jsOrStr (s d : String) : String := if s = "" then d else s

/-- JavaScript `x || d` where `x` is a possibly-absent (undefined) string. -/
def jsOrOpt (o : Option String) (d : String) : String :=
  match o with
  | some s => if s = "" then d else s
  | none => d

/-- JavaScript `a || b || d` for two possibly-absent strings
(`accountData.career_goals || accountData.careerGoals || ''`). -/
def jsOr2 (a b : Option String) (d : String) : String :=
  match a with
  | some s => if s = "" then jsOrOpt b d else s
  | none => jsOrOpt b d

/-- The whitespace test used by `trim` (modelled by `Char.isWhitespace`;
JavaScript's `String.prototype.trim` strips a slightly larger set, which
never matters for the data handled here). -/
def isWS (c : Char) : Bool := c.isWhitespace

/-- `String.prototype.trim` on a character list. -/
def trimChars (l : List Char) : List Char :=
  ((l.dropWhile isWS).reverse.dropWhile isWS).reverse

/-- JavaScript `String.prototype.split(sep)` for a one-character separator:
splits on every occurrence, keeping empty pieces (the result is never empty). -/
def splitOnChar (sep : Char) : List Char → List (List Char)
  | [] => [[]]
  | c :: rest =>
    if c = sep then [] :: splitOnChar sep rest
    else
      match splitOnChar sep rest with
      | l :: ls => (c :: l) :: ls
      | [] => [[c]]

/-- JavaScript's callback-with-index iteration (`arr.map((x, i) => ...)`,
`arr.forEach((x, i) => ...)`), with an explicit starting index. -/
def mapWithIndex (f : Nat → α → β) : Nat → List α → List β
  | _, [] => []
  | i, a :: rest => f i a :: mapWithIndex f (i + 1) rest

/-- `Array.prototype.join(',')`. -/
def joinCells : List (List Char) → List Char
  | [] => []
  | [c] => c
  | c :: rest => c ++ ',' :: joinCells rest

/-! ## The delimited-field codec (`escapeCSV`, `parseCSVValue`, server.js 277-298) -/

/-- `stringValue.replace(/"/g, '""')`: double every double-quote character. -/
def doubleQuotes : List Char → List Char
  | [] => []
  | c :: rest => if c = '"' then '"' :: '"' :: doubleQuotes rest else c :: doubleQuotes rest

/-- `stringValue.includes(',') || stringValue.includes('"') || stringValue.includes('\n')`. -/
def needsQuoting (l : List Char) : Bool :=
  l.contains ',' || l.contains '"' || l.contains '\n'

/-- `escapeCSV` (server.js 278-286) on a character list.  The
`null`/`undefined` branch never fires in our model because every value has
already been converted to a string by the writer. -/
def escapeCSVChars (l : List Char) : List Char :=
  if needsQuoting l then '"' :: (doubleQuotes l ++ ['"']) else l

/-- `escapeCSV` (server.js 278-286). -/
def escapeCSV (s : String) : String := String.mk (escapeCSVChars s.data)

/-- `value.replace(/""/g, '"')`: left-to-right replacement of two consecutive
double quotes by one. -/
def undoubleQuotes : List Char → List Char
  | [] => []
  | '"' :: '"' :: rest => '"' :: undoubleQuotes rest
  | c :: rest => c :: undoubleQuotes rest

/-- `parseCSVValue` (server.js 289-298): strip one layer of surrounding
quotes and un-double the interior quotes.  (`!value` is the empty string
test; the head/last test is `startsWith('"') && endsWith('"')`.) -/
def parseCSVValue (l : List Char) : List Char :=
  if l.head? = some '"' ∧ l.getLast? = some '"' then
    undoubleQuotes ((l.drop 1).dropLast)
  else l

/-! ## The accounts row scanner (inner loop of `readAccounts`, server.js 315-337)

Character-by-character scan with an `inQuotes` flag; two consecutive quotes
inside quoted mode emit one literal quote (skipping the second); a comma
outside quoted mode ends the field; each field is pushed through
`parseCSVValue(current.trim())`. -/

def scanAccountLine : List Char → Bool → List Char → List (List Char)
  | [], _, cur => [parseCSVValue (trimChars cur)]
  | '"' :: '"' :: rest, true, cur => scanAccountLine rest true (cur ++ ['"'])
  | '"' :: rest, true, cur => scanAccountLine rest false cur
  | '"' :: rest, false, cur => scanAccountLine rest true cur
  | ',' :: rest, false, cur => parseCSVValue (trimChars cur) :: scanAccountLine rest false []
  | c :: rest, inQ, cur => scanAccountLine rest inQ (cur ++ [c])

/-- One encoded record row, as written by `writeAccounts`:
the escaped fields joined with commas. -/
def encodeRowChars (fields : List (List Char)) : List Char :=
  joinCells (fields.map escapeCSVChars)

/-- `encodeRowChars` on strings. -/
def encodeRow (fields : List String) : String :=
  String.mk (encodeRowChars (fields.map (·.data)))

/-- The store reader's row decoding applied to raw file text: split the text
on newlines, drop blank lines (`filter(line => line.trim())`), then run the
quote-aware scanner on each remaining line.  This is exactly how
`readAccounts` turns file text into rows of field values. -/
def decodeRows (text : String) : List (List String) :=
  (((splitOnChar '\n' text.data).filter (fun l => trimChars l ≠ [])).map
    (fun line => (scanAccountLine line false []).map String.mk))

/-! ## The catalog row scanner (inner loop of `parseCSV`, server.js 114-131)

Same scan, but every quote merely toggles the flag (no pair decoding), and
fields are pushed as `current.trim()` without `parseCSVValue`. -/

def scanSimpleLine : List Char → Bool → List Char → List (List Char)
  | [], _, cur => [trimChars cur]
  | c :: rest, inQ, cur =>
    if c = '"' then scanSimpleLine rest (!inQ) cur
    else if c = ',' && !inQ then trimChars cur :: scanSimpleLine rest false []
    else scanSimpleLine rest inQ (cur ++ [c])

/-- The per-value quote strip of `parseCSV` (server.js 137-140):
`value.slice(1, -1)` when the value both starts and ends with a quote
(no un-doubling). -/
def stripOuterQuotes (v : List Char) : List Char :=
  if v.head? = some '"' ∧ v.getLast? = some '"' then (v.drop 1).dropLast else v

/-- A raw catalog CSV row: the header-keyed string map `parseCSV` builds. -/
def CRow := List (String × String)

instance : DecidableEq CRow := inferInstanceAs (DecidableEq (List (String × String)))

/-- Reading a property of a row object.  Properties are assigned in header
order with later assignments overwriting earlier ones, hence the `reverse`;
absent properties read as `undefined`, which every use site coerces to `''`
via `|| ''`. -/
def jsGetRow (r : CRow) (k : String) : String :=
  (((r.reverse).find? (fun p => p.1 = k)).map (·.2)).getD ""

/-- `parseCSV` (server.js 107-148): split into non-blank lines, read the
header names from the first line with a plain comma split, scan every other
line with the simple scanner, discard rows with fewer values than headers,
and build one object per surviving row (extra values are ignored). -/
def parseCSVChars (text : List Char) : List CRow :=
  match (splitOnChar '\n' text).filter (fun l => trimChars l ≠ []) with
  | [] => []
  | l0 :: rest =>
    let headers := (splitOnChar ',' l0).map (fun h => String.mk (trimChars h))
    rest.filterMap (fun line =>
      let values := scanSimpleLine line false []
      if headers.length ≤ values.length then
        some (mapWithIndex (fun i h =>
          (h, String.mk (stripOuterQuotes (values.getD i [])))) 0 headers)
      else none)

/-! ## Modelled platform JSON (arrays of strings only)

`writeAccounts` serializes `majors`/`interests` with `JSON.stringify` and
`readAccounts` reads them back with `JSON.parse` (falling back to `[]` on
failure).  Only arrays of strings ever flow through these calls, so the
platform functions are modelled for that fragment: the writer escapes `"`
and `\` (control characters, which `JSON.stringify` would escape as well,
are written raw — no claim depends on them), and the reader accepts exactly
the bracketed, comma-separated, quoted form with `\"  \\  \/  \n  \t  \r`
escapes and no inter-token whitespace (the writer never produces any). -/

/-- Escaping of one string body, as `JSON.stringify` does for `"` and `\`. -/
def escJSONChars : List Char → List Char
  | [] => []
  | c :: rest =>
    if c = '"' then '\\' :: '"' :: escJSONChars rest
    else if c = '\\' then '\\' :: '\\' :: escJSONChars rest
    else c :: escJSONChars rest

/-- Modelled from the platform: `JSON.stringify` of an array of strings. -/
def stringifyList (l : List String) : String :=
  String.mk ('[' :: joinCells (l.map (fun s => '"' :: (escJSONChars s.data ++ ['"']))) ++ [']'])

/-- One-character JSON string escapes accepted by the modelled parser. -/
def jsonUnescape (c : Char) : Option Char :=
  if c = '"' then some '"'
  else if c = '\\' then some '\\'
  else if c = '/' then some '/'
  else if c = 'n' then some '\n'
  else if c = 't' then some '\t'
  else if c = 'r' then some '\r'
  else none

/-- State machine for the items of a JSON array of strings (input starts
just after the opening `[`, which is consumed by `jsonParseList`).
States: 0 = expecting an opening quote, 1 = inside a string,
2 = after a backslash, 3 = after a closing quote (expecting `,` or `]`). -/
def jsonItemsAux : List Char → Nat → List Char → List String → Option (List String)
  | [], _, _, _ => none
  | c :: rest, 0, cur, acc =>
    if c = '"' then jsonItemsAux rest 1 cur acc else none
  | c :: rest, 1, cur, acc =>
    if c = '\\' then jsonItemsAux rest 2 cur acc
    else if c = '"' then jsonItemsAux rest 3 [] (acc ++ [String.mk cur])
    else jsonItemsAux rest 1 (cur ++ [c]) acc
  | c :: rest, 2, cur, acc =>
    match jsonUnescape c with
    | some d => jsonItemsAux rest 1 (cur ++ [d]) acc
    | none => none
  | c :: rest, 3, _, acc =>
    if c = ',' then jsonItemsAux rest 0 [] acc
    else if c = ']' then (if rest = [] then some acc else none)
    else none
  | _ :: _, _ + 4, _, _ => none

/-- Modelled from the platform: `JSON.parse` restricted to arrays of
strings; `none` models a thrown `SyntaxError`. -/
def jsonParseList (l : List Char) : Option (List String) :=
  match l with
  | '[' :: ']' :: rest => if rest = [] then some [] else none
  | '[' :: rest => jsonItemsAux rest 0 [] []
  | _ => none

/-! ## The accounts flat-file store (server.js 262-449) -/

/-- The value of a dynamically-typed `weighted` property: a boolean after
`readAccounts` recognizes the literals `true`/`false`, the raw cell text
otherwise, or `undefined` when the file's header has no such column. -/
inductive WVal where
  | undef : WVal
  | b : Bool → WVal
  | s : String → WVal
deriving DecidableEq

/-- One account record, with the typed sub-fields `readAccounts`
reconstructs (`weighted` boolean conversion, `majors`/`interests` JSON
lists).  Properties a canonical-header file never produces (extra columns)
are outside the model; string properties that would be `undefined` read
as `""`. -/
structure Account where
  user_id : String
  name : String
  grade : String
  gpa : String
  weighted : WVal
  sat : String
  act : String
  psat : String
  majors : List String
  activities : String
  interests : List String
  career_goals : String
  created_at : String
  updated_at : String
deriving DecidableEq

/-- The canonical header row (server.js 273 and 376). -/
def accountHeaders : List String :=
  ["user_id", "name", "grade", "gpa", "weighted", "sat", "act", "psat",
   "majors", "activities", "interests", "career_goals", "created_at", "updated_at"]

/-- The header line text. -/
def headerChars : List Char :=
  "user_id,name,grade,gpa,weighted,sat,act,psat,majors,activities,interests,career_goals,created_at,updated_at".data

/-- Serialization of the `weighted` cell (server.js 390-392):
`value === true ? 'true' : 'false'` after `value = account.weighted || ''`. -/
def weightedCell : WVal → String
  | WVal.b true => "true"
  | _ => "false"

/-- The fourteen cell values `writeAccounts` produces for one account, in
header order (server.js 380-395), before `escapeCSV` is applied. -/
def rowCells (a : Account) : List String :=
  [a.user_id, a.name, a.grade, a.gpa, weightedCell a.weighted, a.sat, a.act, a.psat,
   stringifyList a.majors, a.activities, stringifyList a.interests, a.career_goals,
   a.created_at, a.updated_at]

/-- One encoded account row. -/
def rowChars (a : Account) : List Char :=
  joinCells ((rowCells a).map (fun s => escapeCSVChars s.data))

/-- `writeAccounts` (server.js 374-406): the header line then one row per
account, each line terminated by `\n`. -/
def writeAccountsChars (accounts : List Account) : List Char :=
  headerChars ++ '\n' :: accounts.foldr (fun a acc => rowChars a ++ '\n' :: acc) []

/-- Building one account object from the parsed header names and the
scanned values (server.js 339-362): assign `values[index] || ''` per
header (later duplicate headers overwrite earlier ones, hence the
`reverse`d lookup), then convert `weighted` and JSON-decode
`majors`/`interests` with failure falling back to `[]`. -/
def mkAccount (headers : List String) (values : List (List Char)) : Account :=
  let obj : List (String × List Char) := mapWithIndex (fun i h => (h, values.getD i [])) 0 headers
  let get : String → Option (List Char) := fun k =>
    (((obj.reverse).find? (fun p => p.1 = k)).map (·.2))
  let getS : String → String := fun k => String.mk ((get k).getD [])
  { user_id := getS "user_id"
    name := getS "name"
    grade := getS "grade"
    gpa := getS "gpa"
    weighted :=
      match get "weighted" with
      | none => WVal.undef
      | some v =>
        if v = "true".data then WVal.b true
        else if v = "false".data then WVal.b false
        else WVal.s (String.mk v)
    sat := getS "sat"
    act := getS "act"
    psat := getS "psat"
    majors :=
      match get "majors" with
      | none => []
      | some v => if v = [] then [] else (jsonParseList v).getD []
    activities := getS "activities"
    interests :=
      match get "interests" with
      | none => []
      | some v => if v = [] then [] else (jsonParseList v).getD []
    career_goals := getS "career_goals"
    created_at := getS "created_at"
    updated_at := getS "updated_at" }

/-- `readAccounts` (server.js 301-371) on file text: split into non-blank
lines, return `[]` when only the header (or nothing) remains, read the
header names with a plain comma split, scan each remaining line with the
quote-aware scanner, and keep only rows with at least as many values as
headers. -/
def readAccountsText (text : List Char) : List Account :=
  match (splitOnChar '\n' text).filter (fun l => trimChars l ≠ []) with
  | [] => []
  | [_] => []
  | l0 :: rest =>
    let headers := (splitOnChar ',' l0).map (fun h => String.mk (trimChars h))
    rest.filterMap (fun line =>
      let values := scanAccountLine line false []
      if headers.length ≤ values.length then some (mkAccount headers values) else none)

/-- `readAccounts` including its failure policy: a missing or unreadable
file (`none`) yields the empty list (server.js 303-305 and 367-370). -/
def readAccountsOpt : Option (List Char) → List Account
  | none => []
  | some text => readAccountsText text

/-- `writeAccounts`' result as seen by callers: `fs.writeFileSync` is
modelled as a function that may fail (`none` models a thrown error, caught
on server.js 402-405 and reported as `false`). -/
def writeAccountsRes (accounts : List Account) (fsWrite : List Char → Option Unit) : Bool :=
  match fsWrite (writeAccountsChars accounts) with
  | some _ => true
  | none => false

/-- `getAccount` (server.js 409-412): first record whose `user_id` matches. -/
def getAccountText (text : List Char) (userId : String) : Option Account :=
  (readAccountsText text).find? (fun a => a.user_id = userId)

/-- The argument of `saveAccount`: a loose record whose absent properties
(`none`) are simply not spread over the existing account.  `careerGoals` is
only consulted by the new-account branch's `||` chain; `created_at` is
never supplied by the HTTP handler but would be spread if present. -/
structure AccountData where
  user_id : String
  name : Option String := none
  grade : Option String := none
  gpa : Option String := none
  weighted : Option Bool := none
  sat : Option String := none
  act : Option String := none
  psat : Option String := none
  majors : Option (List String) := none
  activities : Option String := none
  interests : Option (List String) := none
  career_goals : Option String := none
  careerGoals : Option String := none
  created_at : Option String := none
deriving DecidableEq

/-- The update branch of `saveAccount` (server.js 421-427):
`{...existing, ...accountData, updated_at: now}` — every property present
in `accountData` overwrites the existing one, `updated_at` is refreshed.
(A `careerGoals` property would be spread as a foreign key that
`writeAccounts` ignores, so it does not appear here.) -/
def mergeAccount (a : Account) (d : AccountData) (now : String) : Account :=
  { user_id := d.user_id
    name := d.name.getD a.name
    grade := d.grade.getD a.grade
    gpa := d.gpa.getD a.gpa
    weighted := match d.weighted with | some b => WVal.b b | none => a.weighted
    sat := d.sat.getD a.sat
    act := d.act.getD a.act
    psat := d.psat.getD a.psat
    majors := d.majors.getD a.majors
    activities := d.activities.getD a.activities
    interests := d.interests.getD a.interests
    career_goals := d.career_goals.getD a.career_goals
    created_at := d.created_at.getD a.created_at
    updated_at := now }

/-- The create branch of `saveAccount` (server.js 428-445): defaults via
`||` (so `''` also falls back), `weighted` defaults only on `undefined`,
array defaults `[]` (arrays are truthy, so a present empty array stays),
and both timestamps set to `now`. -/
def newAccount (d : AccountData) (now : String) : Account :=
  { user_id := d.user_id
    name := jsOrOpt d.name ""
    grade := jsOrOpt d.grade ""
    gpa := jsOrOpt d.gpa ""
    weighted := WVal.b (d.weighted.getD true)
    sat := jsOrOpt d.sat ""
    act := jsOrOpt d.act ""
    psat := jsOrOpt d.psat ""
    majors := d.majors.getD []
    activities := jsOrOpt d.activities ""
    interests := d.interests.getD []
    career_goals := jsOr2 d.career_goals d.careerGoals ""
    created_at := now
    updated_at := now }

/-- The in-memory transformation of `saveAccount` (server.js 415-447):
replace the first record whose `user_id` matches (that is what
`findIndex` + index assignment does) or append a new one. -/
def saveList : List Account → AccountData → String → List Account
  | [], d, now => [newAccount d now]
  | a :: rest, d, now =>
    if a.user_id = d.user_id then mergeAccount a d now :: rest
    else a :: saveList rest d now

/-- `saveAccount`'s effect on the backing file in the successful-write
case: read all records, transform, rewrite the whole file. -/
def saveTextChars (text : List Char) (d : AccountData) (now : String) : List Char :=
  writeAccountsChars (saveList (readAccountsText text) d now)

/-! ## The profile HTTP handlers (server.js 457-542) -/

/-- The request body of `POST /api/profile` as far as the handler reads it.
Absent properties are `none`; `weighted` is modelled as an optional boolean
and `majors`/`interests` as optional string arrays (the shapes the
frontend sends and the only ones the store round-trips). -/
structure ProfileIn where
  user_id : String
  name : Option String := none
  grade : Option String := none
  gpa : Option String := none
  weighted : Option Bool := none
  sat : Option String := none
  act : Option String := none
  psat : Option String := none
  majors : Option (List String) := none
  activities : Option String := none
  interests : Option (List String) := none
  careerGoals : Option String := none
  career_goals : Option String := none
deriving DecidableEq

/-- The frontend-to-backend mapping of the POST handler (server.js
516-529): every property of `accountData` is assigned, with `|| ''`
defaults for strings, `!== undefined ? _ : true` for `weighted`, `|| []`
for the arrays, and the `careerGoals || career_goals || ''` chain. -/
def toAccountData (p : ProfileIn) : AccountData :=
  { user_id := p.user_id
    name := some (jsOrOpt p.name "")
    grade := some (jsOrOpt p.grade "")
    gpa := some (jsOrOpt p.gpa "")
    weighted := some (p.weighted.getD true)
    sat := some (jsOrOpt p.sat "")
    act := some (jsOrOpt p.act "")
    psat := some (jsOrOpt p.psat "")
    majors := some (p.majors.getD [])
    activities := some (jsOrOpt p.activities "")
    interests := some (p.interests.getD [])
    career_goals := some (jsOr2 p.careerGoals p.career_goals "")
    careerGoals := none
    created_at := none }

/-- `POST /api/profile` (server.js 507-542) acting on the store file in the
successful-write case: `none` models the 400 response for a missing
`user_id` (the empty string is falsy). -/
def postProfileText (text : List Char) (p : ProfileIn) (now : String) : Option (List Char) :=
  if p.user_id = "" then none
  else some (saveTextChars text (toAccountData p) now)

/-- The response shape of `GET /api/profile` (server.js 469-499). -/
structure ProfileResp where
  user_id : String
  name : String
  grade : String
  gpa : String
  weighted : WVal
  sat : String
  act : String
  psat : String
  majors : List String
  activities : String
  interests : List String
  careerGoals : String
deriving DecidableEq

/-- `GET /api/profile` (server.js 457-504): `none` models the 400 response
for a missing `user_id`; an unknown identifier yields the default profile;
otherwise the stored record is mapped to the frontend shape, with `|| ''`
on the strings, `!== undefined ? _ : true` on `weighted` (a `weighted`
property is `undefined` only when the file's header lacks the column), and
`|| []` on the arrays (always-truthy, hence the identity). -/
def getProfileResp (text : List Char) (userId : String) : Option ProfileResp :=
  if userId = "" then none
  else
    match getAccountText text userId with
    | none =>
      some { user_id := userId, name := "", grade := "", gpa := "",
             weighted := WVal.b true, sat := "", act := "", psat := "",
             majors := [], activities := "", interests := [], careerGoals := "" }
    | some a =>
      some { user_id := a.user_id
             name := jsOrStr a.name ""
             grade := jsOrStr a.grade ""
             gpa := jsOrStr a.gpa ""
             weighted := match a.weighted with | WVal.undef => WVal.b true | w => w
             sat := jsOrStr a.sat ""
             act := jsOrStr a.act ""
             psat := jsOrStr a.psat ""
             majors := a.majors
             activities := jsOrStr a.activities ""
             interests := a.interests
             careerGoals := jsOrStr a.career_goals "" }

/-! ## The catalog query endpoint (server.js 174-260) -/

/-- Modelled from the platform: `parseFloat` as exact decimal arithmetic
over `ℚ` (optional sign, digits with an optional fraction, optional
exponent; trailing garbage ignored; `none` models `NaN`).  IEEE rounding
and the `Infinity` literal are not modelled; no claim inspects the parsed
numeric values. -/
def readDigits : List Char → List Nat × List Char
  | [] => ([], [])
  | c :: rest =>
    if c.isDigit then
      let (ds, r) := readDigits rest
      ((c.toNat - '0'.toNat) :: ds, r)
    else ([], c :: rest)

/-- Digits to a natural number, most significant first. -/
def digitsVal (ds : List Nat) : Nat := ds.foldl (fun acc d => acc * 10 + d) 0

/-- See `readDigits`. -/
def jsParseFloat (s : String) : Option ℚ :=
  let l := s.data.dropWhile isWS
  let (sgn, l) : ℚ × List Char :=
    match l with
    | '-' :: r => (-1, r)
    | '+' :: r => (1, r)
    | _ => (1, l)
  let (ip, l) := readDigits l
  let (fp, l) :=
    match l with
    | '.' :: r => readDigits r
    | _ => ([], l)
  if ip = [] ∧ fp = [] then none
  else
    let mant : ℚ := (digitsVal ip : ℚ) + (digitsVal fp : ℚ) / ((10 : ℚ) ^ fp.length)
    let expPart : ℚ :=
      match l with
      | 'e' :: '-' :: r => if (readDigits r).1 = [] then 1 else 1 / (10 : ℚ) ^ digitsVal (readDigits r).1
      | 'E' :: '-' :: r => if (readDigits r).1 = [] then 1 else 1 / (10 : ℚ) ^ digitsVal (readDigits r).1
      | 'e' :: '+' :: r => if (readDigits r).1 = [] then 1 else (10 : ℚ) ^ digitsVal (readDigits r).1
      | 'E' :: '+' :: r => if (readDigits r).1 = [] then 1 else (10 : ℚ) ^ digitsVal (readDigits r).1
      | 'e' :: r => if (readDigits r).1 = [] then 1 else (10 : ℚ) ^ digitsVal (readDigits r).1
      | 'E' :: r => if (readDigits r).1 = [] then 1 else (10 : ℚ) ^ digitsVal (readDigits r).1
      | _ => 1
    some (sgn * mant * expPart)

/-- `parseNum` (server.js 192-196): empty/falsy input and unparsable text
both map to "no value". -/
def parseNum (v : String) : Option ℚ :=
  if v = "" then none
  else jsParseFloat v

/-- The normalized catalog entry `transformCollege` produces (server.js 175-219). -/
structure Entry where
  id : String
  name : String
  location : String
  city : String
  state : String
  size : String
  type_ : String
  acceptanceRate : Option ℚ
  satAverage : Option ℚ
  actMidpoint : Option ℚ
  tuitionInState : Option ℚ
  tuitionOutState : Option ℚ
  graduationRate : Option ℚ
  enrollment : Option ℚ
  region : String
  popularMajors : String
  medianEarnings : Option ℚ
  campusSetting : String
  url : String
deriving DecidableEq

/-- `transformCollege` (server.js 175-219). -/
def transformCollege (row : CRow) (index : Nat) : Entry :=
  let city := jsGetRow row "city"
  let state := jsGetRow row "state"
  { id := jsOrStr (jsGetRow row "ipeds_id") ("csv-" ++ toString index)
    name := jsOrStr (jsGetRow row "name") "Unknown"
    location :=
      if city ≠ "" ∧ state ≠ "" then city ++ ", " ++ state
      else jsOrStr city (jsOrStr state "Unknown")
    city := city
    state := state
    size := jsOrStr (jsGetRow row "size_category") "Unknown"
    type_ := jsOrStr (jsGetRow row "type") "Unknown"
    acceptanceRate :=
      if jsGetRow row "acceptance_rate" ≠ "" then jsParseFloat (jsGetRow row "acceptance_rate")
      else none
    satAverage := parseNum (jsGetRow row "sat_50th_percentile")
    actMidpoint := parseNum (jsGetRow row "act_50th_percentile")
    tuitionInState := parseNum (jsGetRow row "tuition_in_state")
    tuitionOutState := parseNum (jsGetRow row "tuition_out_state")
    graduationRate := parseNum (jsGetRow row "graduation_rate")
    enrollment := parseNum (jsGetRow row "enrollment")
    region := jsGetRow row "region"
    popularMajors := jsGetRow row "popular_majors"
    medianEarnings := parseNum (jsGetRow row "median_earnings_10_years")
    campusSetting := jsGetRow row "campus_setting"
    url := jsGetRow row "url" }

/-- `String.prototype.includes`: substring containment. -/
def jsIncludes (hay pat : String) : Bool := decide (pat.data <:+: hay.data)

/-- `String.prototype.toLowerCase`, modelled per character by
`Char.toLower` (ASCII-faithful; the full Unicode case map is out of scope). -/
def toLowerStr (s : String) : String := String.mk (s.data.map Char.toLower)

/-- The search filter predicate (server.js 232-237): OR of case-insensitive
substring tests on name, city and state. -/
def matchesSearch (search : String) (row : CRow) : Bool :=
  jsIncludes (toLowerStr (jsGetRow row "name")) (toLowerStr search) ||
  jsIncludes (toLowerStr (jsGetRow row "city")) (toLowerStr search) ||
  jsIncludes (toLowerStr (jsGetRow row "state")) (toLowerStr search)

/-- The response of `GET /api/colleges`. -/
structure QueryResult where
  results : List Entry
  page : Nat
  per_page : Nat
  total : Nat
deriving DecidableEq

/-- `GET /api/colleges` (server.js 222-260) given the cached dataset and
the already-coerced page numbers (`parseInt(page) || 1`,
`parseInt(per_page) || 20` produce positive integers for valid input,
which is all the claims quantify over).  `searchFilter` is the handler's
`if (search)` stage: the filter is skipped for an absent or empty search
string; `slice(start, start + perPage)` is `drop`/`take`. -/
def searchFilter (search : Option String) (rows : List CRow) : List CRow :=
  match search with
  | some s => if s ≠ "" then rows.filter (matchesSearch s) else rows
  | none => rows

/-- See `collegesQuery`. -/
def collegesQuery (rows : List CRow) (search : Option String)
    (pageNum perPage : Nat) : QueryResult :=
  let transformed := mapWithIndex (fun i r => transformCollege r i) 0 (searchFilter search rows)
  let start := (pageNum - 1) * perPage
  { results := (transformed.drop start).take perPage
    page := pageNum
    per_page := perPage
    total := transformed.length }

/-! ## The dataset cache (server.js 101-172) -/

/-- The module-global cache pair (`collegeDataCache`,
`collegeDataCacheTime`); `none` is `null`. -/
structure CacheState where
  cache : Option (List CRow)
  cacheTime : Option Nat
deriving DecidableEq

/-- `CACHE_DURATION = 5 * 60 * 1000` (server.js 104). -/
def CACHE_DURATION : Nat := 5 * 60 * 1000

/-- `loadCollegeData` (server.js 151-159): a failed read (`none`) yields
the empty dataset. -/
def loadCollegeData (file : Option (List Char)) : List CRow :=
  match file with
  | some text => parseCSVChars text
  | none => []

/-- The reload test of `getCollegeData` (server.js 165):
`!collegeDataCache || !collegeDataCacheTime || (now - collegeDataCacheTime) > CACHE_DURATION`.
An empty cached array is truthy, so only `null` counts as "no snapshot";
a timestamp is falsy only at `0`, which `Date.now()` never returns but is
modelled faithfully.  JavaScript's possibly-negative subtraction agrees
with truncated `Nat` subtraction on the `> CACHE_DURATION` test. -/
def cacheIsStale (st : CacheState) (now : Nat) : Bool :=
  decide (st.cache = none) || decide (st.cacheTime = none) || decide (st.cacheTime = some 0) ||
    (match st.cacheTime with
     | some t => decide (now - t > CACHE_DURATION)
     | none => true)

/-- `getCollegeData` (server.js 162-172): returns the dataset and the new
global state. -/
def getCollegeData (st : CacheState) (now : Nat) (file : Option (List Char)) :
    List CRow × CacheState :=
  if cacheIsStale st now then
    let d := loadCollegeData file
    (d, ⟨some d, some now⟩)
  else
    ((st.cache.getD []), st)

/-! ## Sanity predicates: field values the codec round-trips -/

/-- A field value survives the store's write-then-read cycle when it has no
embedded newline (the reader splits lines first), is invariant under
`trim`, and is not itself wrapped in double quotes (the reader would strip
them a second time). -/
def okField (l : List Char) : Prop :=
  '\n' ∉ l ∧ trimChars l = l ∧ ¬(l.head? = some '"' ∧ l.getLast? = some '"')

instance (l : List Char) : Decidable (okField l) := by
  unfold okField; infer_instance

/-- List-valued fields only need newline-free members: the JSON layer
escapes quotes and backslashes itself. -/
def okStrs (l : List String) : Prop := ∀ s ∈ l, '\n' ∉ s.data

instance (l : List String) : Decidable (okStrs l) := by
  unfold okStrs; infer_instance

/-- An account every cell of which round-trips through the file. -/
def SaneAccount (a : Account) : Prop :=
  okField a.user_id.data ∧ okField a.name.data ∧ okField a.grade.data ∧
  okField a.gpa.data ∧
  (a.weighted = WVal.b true ∨ a.weighted = WVal.b false) ∧
  okField a.sat.data ∧ okField a.act.data ∧ okField a.psat.data ∧
  okStrs a.majors ∧ okField a.activities.data ∧ okStrs a.interests ∧
  okField a.career_goals.data ∧ okField a.created_at.data ∧ okField a.updated_at.data

instance (a : Account) : Decidable (SaneAccount a) := by
  unfold SaneAccount; infer_instance

/-- `okField` on a possibly-absent string. -/
def okOptF : Option String → Prop
  | none => True
  | some s => okField s.data

instance (o : Option String) : Decidable (okOptF o) := by
  cases o <;> unfold okOptF <;> infer_instance

/-- `okStrs` on a possibly-absent string list. -/
def okOptL : Option (List String) → Prop
  | none => True
  | some l => okStrs l

instance (o : Option (List String)) : Decidable (okOptL o) := by
  cases o <;> unfold okOptL <;> infer_instance

/-- A save payload whose supplied values round-trip through the file. -/
def SaneData (d : AccountData) : Prop :=
  okField d.user_id.data ∧ okOptF d.name ∧ okOptF d.grade ∧ okOptF d.gpa ∧
  okOptF d.sat ∧ okOptF d.act ∧ okOptF d.psat ∧ okOptL d.majors ∧
  okOptF d.activities ∧ okOptL d.interests ∧ okOptF d.career_goals ∧
  okOptF d.careerGoals ∧ okOptF d.created_at

instance (d : AccountData) : Decidable (SaneData d) := by
  unfold SaneData; infer_instance

/-- A profile request body whose supplied values round-trip. -/
def SaneProfileIn (p : ProfileIn) : Prop :=
  okField p.user_id.data ∧ okOptF p.name ∧ okOptF p.grade ∧ okOptF p.gpa ∧
  okOptF p.sat ∧ okOptF p.act ∧ okOptF p.psat ∧ okOptL p.majors ∧
  okOptF p.activities ∧ okOptL p.interests ∧ okOptF p.careerGoals ∧
  okOptF p.career_goals

instance (p : ProfileIn) : Decidable (SaneProfileIn p) := by
  unfold SaneProfileIn; infer_instance

/-- Applying a sequence of saves to the store file. -/
def applySaves : List Char → List (AccountData × String) → List Char
  | t, [] => t
  | t, (d, now) :: rest => applySaves (saveTextChars t d now) rest

/-! ## Lemmas about the accounts scanner -/

theorem scan_nil (inQ : Bool) (cur : List Char) :
    scanAccountLine [] inQ cur = [parseCSVValue (trimChars cur)] := by
  simp [scanAccountLine]

theorem scan_quote_pair (rest cur : List Char) :
    scanAccountLine ('"' :: '"' :: rest) true cur = scanAccountLine rest true (cur ++ ['"']) := by
  simp [scanAccountLine]

theorem scan_quote_close (rest cur : List Char) (h : rest.head? ≠ some '"') :
    scanAccountLine ('"' :: rest) true cur = scanAccountLine rest false cur := by
  cases rest with
  | nil => rfl
  | cons c t =>
    have hc : c ≠ '"' := by simpa using h
    simp [scanAccountLine, hc]

theorem scan_quote_open (rest cur : List Char) :
    scanAccountLine ('"' :: rest) false cur = scanAccountLine rest true cur := by
  simp [scanAccountLine]

theorem scan_comma (rest cur : List Char) :
    scanAccountLine (',' :: rest) false cur
      = parseCSVValue (trimChars cur) :: scanAccountLine rest false [] := by
  simp [scanAccountLine]

theorem scan_other (c : Char) (rest cur : List Char) (inQ : Bool)
    (h1 : c ≠ '"') (h2 : ¬(c = ',' ∧ inQ = false)) :
    scanAccountLine (c :: rest) inQ cur = scanAccountLine rest inQ (cur ++ [c]) := by
  cases inQ with
  | false =>
    have hc : c ≠ ',' := fun h => h2 ⟨h, rfl⟩
    cases rest with
    | nil => simp [scanAccountLine, h1, hc]
    | cons d t => simp [scanAccountLine, h1, hc]
  | true =>
    cases rest with
    | nil => simp [scanAccountLine, h1]
    | cons d t => simp [scanAccountLine, h1]

/-- Scanning a quote-and-comma-free run outside quotes accumulates it. -/
theorem scan_append_raw (v : List Char) (hq : '"' ∉ v) (hc : ',' ∉ v) :
    ∀ rest cur, scanAccountLine (v ++ rest) false cur = scanAccountLine rest false (cur ++ v) := by
  induction v with
  | nil => intro rest cur; simp
  | cons c v ih =>
    intro rest cur
    have hcq : c ≠ '"' := fun h => hq (h ▸ List.mem_cons_self c v)
    have hcc : c ≠ ',' := fun h => hc (h ▸ List.mem_cons_self c v)
    rw [List.cons_append, scan_other c _ _ _ hcq (fun h => hcc h.1),
      ih (fun h => hq (List.mem_cons_of_mem c h)) (fun h => hc (List.mem_cons_of_mem c h))]
    simp

/-- Scanning a quote-free run inside quotes accumulates it (commas included). -/
theorem scan_append_quoted (v : List Char) (hq : '"' ∉ v) :
    ∀ rest cur, scanAccountLine (v ++ rest) true cur = scanAccountLine rest true (cur ++ v) := by
  induction v with
  | nil => intro rest cur; simp
  | cons c v ih =>
    intro rest cur
    have hcq : c ≠ '"' := fun h => hq (h ▸ List.mem_cons_self c v)
    rw [List.cons_append, scan_other c _ _ _ hcq (by simp),
      ih (fun h => hq (List.mem_cons_of_mem c h))]
    simp

/-- Scanning the doubled form of `v` inside quotes, followed by the closing
quote, recovers `v` and leaves quoted mode. -/
theorem scan_doubled (v : List Char) :
    ∀ rest cur, rest.head? ≠ some '"' →
      scanAccountLine (doubleQuotes v ++ '"' :: rest) true cur
        = scanAccountLine rest false (cur ++ v) := by
  induction v with
  | nil =>
    intro rest cur h
    simpa using scan_quote_close rest cur h
  | cons c v ih =>
    intro rest cur h
    by_cases hc : c = '"'
    · subst hc
      have : doubleQuotes ('"' :: v) = '"' :: '"' :: doubleQuotes v := by
        simp [doubleQuotes]
      rw [this, List.cons_append, List.cons_append, scan_quote_pair, ih rest _ h]
      simp
    · have : doubleQuotes (c :: v) = c :: doubleQuotes v := by
        simp [doubleQuotes, hc]
      rw [this, List.cons_append, scan_other c _ _ _ hc (by simp), ih rest _ h]
      simp

/-- Scanning one escaped field recovers the raw field value. -/
theorem scan_field (v : List Char) (rest cur : List Char) (h : rest.head? ≠ some '"') :
    scanAccountLine (escapeCSVChars v ++ rest) false cur = scanAccountLine rest false (cur ++ v) := by
  by_cases hq : needsQuoting v
  · rw [escapeCSVChars, if_pos hq]
    rw [List.cons_append, List.append_assoc, List.singleton_append,
      scan_quote_open, scan_doubled v rest cur h]
  · rw [escapeCSVChars, if_neg hq]
    simp [needsQuoting] at hq
    obtain ⟨⟨hc, hdq⟩, -⟩ := hq
    exact scan_append_raw v hdq hc rest cur

/-- Scanning a full encoded row yields `parseCSVValue ∘ trim` of every field. -/
theorem scan_row (f : List Char) (fs : List (List Char)) :
    ∀ cur, scanAccountLine (joinCells ((f :: fs).map escapeCSVChars)) false cur
      = parseCSVValue (trimChars (cur ++ f))
        :: fs.map (fun g => parseCSVValue (trimChars g)) := by
  induction fs generalizing f with
  | nil =>
    intro cur
    have : joinCells ([f].map escapeCSVChars) = escapeCSVChars f ++ [] := by
      simp [joinCells]
    rw [this, scan_field f [] cur (by simp), scan_nil]
    simp
  | cons g fs ih =>
    intro cur
    have : joinCells ((f :: g :: fs).map escapeCSVChars)
        = escapeCSVChars f ++ ',' :: joinCells ((g :: fs).map escapeCSVChars) := by
      simp [joinCells]
    rw [this, scan_field f _ cur (by simp), scan_comma, ih g []]
    simp

/-- `scan_row` packaged for `encodeRowChars`. -/
theorem scan_encodeRow (fields : List (List Char)) (hne : fields ≠ []) :
    scanAccountLine (encodeRowChars fields) false []
      = fields.map (fun g => parseCSVValue (trimChars g)) := by
  match fields, hne with
  | f :: fs, _ =>
    rw [encodeRowChars, scan_row f fs []]
    simp

/-- On an `okField` value, `parseCSVValue ∘ trim` is the identity. -/
theorem pcv_trim_of_okField (l : List Char) (h : okField l) :
    parseCSVValue (trimChars l) = l := by
  obtain ⟨-, h2, h3⟩ := h
  rw [h2, parseCSVValue, if_neg h3]

/-! ## Lemmas about line splitting, trimming and joining -/

theorem splitOnChar_ne_nil (sep : Char) (l : List Char) : splitOnChar sep l ≠ [] := by
  induction l with
  | nil => simp [splitOnChar]
  | cons c rest ih =>
    rw [splitOnChar]
    by_cases h : c = sep
    · simp [h]
    · simp only [h, if_false]
      cases hs : splitOnChar sep rest with
      | nil => exact absurd hs ih
      | cons l ls => simp

theorem splitOnChar_cons_sep (sep : Char) (b : List Char) :
    splitOnChar sep (sep :: b) = [] :: splitOnChar sep b := by
  simp [splitOnChar]

theorem splitOnChar_append (sep : Char) (a b : List Char) (h : sep ∉ a) :
    splitOnChar sep (a ++ b) = (splitOnChar sep b).modifyHead (a ++ ·) := by
  induction a with
  | nil =>
    cases hs : splitOnChar sep b with
    | nil => exact absurd hs (splitOnChar_ne_nil sep b)
    | cons l ls => simp [hs]
  | cons c a ih =>
    have hc : c ≠ sep := fun hh => h (hh ▸ List.mem_cons_self c a)
    have ha : sep ∉ a := fun hh => h (List.mem_cons_of_mem c hh)
    rw [List.cons_append, splitOnChar]
    simp only [hc, if_false]
    rw [ih ha]
    cases hs : splitOnChar sep b with
    | nil => exact absurd hs (splitOnChar_ne_nil sep b)
    | cons l ls => simp

/-- Splitting `a ++ '\n' :: b` when `a` is newline-free peels off `a`. -/
theorem splitOnChar_chunk (sep : Char) (a b : List Char) (h : sep ∉ a) :
    splitOnChar sep (a ++ sep :: b) = a :: splitOnChar sep b := by
  rw [splitOnChar_append sep a _ h, splitOnChar_cons_sep]
  simp

/-- A separator-free list splits into itself. -/
theorem splitOnChar_of_not_mem (sep : Char) (a : List Char) (h : sep ∉ a) :
    splitOnChar sep a = [a] := by
  have := splitOnChar_append sep a [] h
  simpa [splitOnChar] using this

theorem trimChars_nil : trimChars [] = [] := rfl

theorem joinCells_cons_cons (c1 c2 : List Char) (rest : List (List Char)) :
    joinCells (c1 :: c2 :: rest) = c1 ++ ',' :: joinCells (c2 :: rest) := rfl

theorem joinCells_cons_of_ne (x : List Char) (L : List (List Char)) (h : L ≠ []) :
    joinCells (x :: L) = x ++ ',' :: joinCells L := by
  cases L with
  | nil => exact absurd rfl h
  | cons a b => rfl

/-- If `trimChars l` is empty, every member of `l` is whitespace. -/
theorem all_ws_of_trimChars_nil (l : List Char) (h : trimChars l = []) :
    ∀ x ∈ l, isWS x = true := by
  intro x hx
  rw [trimChars] at h
  have h2 : (((l.dropWhile isWS).reverse).dropWhile isWS) = [] := by
    simpa using h
  rw [List.dropWhile_eq_nil_iff] at h2
  by_cases hxd : x ∈ l.dropWhile isWS
  · exact h2 x (List.mem_reverse.mpr hxd)
  · have : x ∈ l.takeWhile isWS ++ l.dropWhile isWS := by
      rw [List.takeWhile_append_dropWhile]; exact hx
    rcases List.mem_append.mp this with h3 | h3
    · exact List.mem_takeWhile_imp h3
    · exact absurd h3 hxd

/-- A list containing a non-whitespace character does not trim to empty. -/
theorem trimChars_ne_nil_of_mem (l : List Char) (x : Char) (hx : x ∈ l)
    (hws : isWS x = false) : trimChars l ≠ [] := by
  intro h
  have := all_ws_of_trimChars_nil l h x hx
  rw [hws] at this
  exact Bool.false_ne_true this

/-- A list whose first and last characters are non-whitespace is
trim-invariant. -/
theorem trimChars_of_ends (l : List Char) (c d : Char)
    (h1 : l.head? = some c) (hc : isWS c = false)
    (h2 : l.getLast? = some d) (hd : isWS d = false) :
    trimChars l = l := by
  have hdw : l.dropWhile isWS = l := by
    cases l with
    | nil => rfl
    | cons a t =>
      have : a = c := by simpa using h1
      rw [List.dropWhile_cons, this, hc]
      simp
  rw [trimChars, hdw]
  have hrev : l.reverse.head? = some d := by
    rw [List.head?_reverse]; exact h2
  have hdr : l.reverse.dropWhile isWS = l.reverse := by
    cases hr : l.reverse with
    | nil => rfl
    | cons a t =>
      have : a = d := by rw [hr] at hrev; simpa using hrev
      rw [List.dropWhile_cons, this, hd]
      simp
  rw [hdr, List.reverse_reverse]

/-- Membership in a comma-join comes from the separator or a cell. -/
theorem mem_joinCells (x : Char) (ls : List (List Char)) (h : x ∈ joinCells ls) :
    x = ',' ∨ ∃ l ∈ ls, x ∈ l := by
  induction ls with
  | nil => simp [joinCells] at h
  | cons c rest ih =>
    cases rest with
    | nil =>
      simp [joinCells] at h
      exact Or.inr ⟨c, by simp, h⟩
    | cons c2 rest2 =>
      rw [joinCells_cons_cons] at h
      rcases List.mem_append.mp h with h1 | h1
      · exact Or.inr ⟨c, by simp, h1⟩
      · rcases List.mem_cons.mp h1 with h2 | h2
        · exact Or.inl h2
        · rcases ih h2 with h3 | ⟨l, hl, hxl⟩
          · exact Or.inl h3
          · exact Or.inr ⟨l, List.mem_cons_of_mem c hl, hxl⟩

/-- A join of at least two cells contains a comma. -/
theorem comma_mem_joinCells (c1 c2 : List Char) (rest : List (List Char)) :
    ',' ∈ joinCells (c1 :: c2 :: rest) := by
  rw [joinCells_cons_cons]
  exact List.mem_append.mpr (Or.inr (List.mem_cons_self _ _))

/-- Membership in a doubled-quotes list reflects to the original. -/
theorem mem_of_mem_doubleQuotes (x : Char) (l : List Char) (h : x ∈ doubleQuotes l) :
    x ∈ l ∨ x = '"' := by
  induction l with
  | nil => simp [doubleQuotes] at h
  | cons c rest ih =>
    rw [doubleQuotes] at h
    by_cases hc : c = '"'
    · simp only [hc, if_pos rfl] at h
      rcases List.mem_cons.mp h with h1 | h1
      · exact Or.inr h1
      · rcases List.mem_cons.mp h1 with h2 | h2
        · exact Or.inr h2
        · rcases ih h2 with h3 | h3
          · exact Or.inl (List.mem_cons_of_mem c h3)
          · exact Or.inr h3
    · simp only [hc, if_false] at h
      rcases List.mem_cons.mp h with h1 | h1
      · exact Or.inl (h1 ▸ List.mem_cons_self c rest)
      · rcases ih h1 with h3 | h3
        · exact Or.inl (List.mem_cons_of_mem c h3)
        · exact Or.inr h3

/-- An escaped cell contains no newline if the raw cell has none. -/
theorem escapeCSVChars_no_newline (v : List Char) (h : '\n' ∉ v) :
    '\n' ∉ escapeCSVChars v := by
  rw [escapeCSVChars]
  by_cases hq : needsQuoting v
  · simp only [hq, if_pos]
    intro hm
    rcases List.mem_cons.mp hm with h1 | h1
    · exact absurd h1.symm (by decide)
    · rcases List.mem_append.mp h1 with h2 | h2
      · rcases mem_of_mem_doubleQuotes _ _ h2 with h3 | h3
        · exact h h3
        · exact absurd h3 (by decide)
      · simp at h2
  · simp only [hq, if_false]
    exact h

/-- Membership in an escaped JSON string body reflects to the original. -/
theorem mem_of_mem_escJSON (x : Char) (l : List Char) (h : x ∈ escJSONChars l) :
    x ∈ l ∨ x = '\\' ∨ x = '"' := by
  induction l with
  | nil => simp [escJSONChars] at h
  | cons c rest ih =>
    rw [escJSONChars] at h
    by_cases h1 : c = '"'
    · simp only [h1, if_pos rfl] at h
      rcases List.mem_cons.mp h with h2 | h2
      · exact Or.inr (Or.inl h2)
      · rcases List.mem_cons.mp h2 with h3 | h3
        · exact Or.inr (Or.inr h3)
        · rcases ih h3 with h4 | h4
          · exact Or.inl (List.mem_cons_of_mem c h4)
          · exact Or.inr h4
    · by_cases h2 : c = '\\'
      · simp only [h1, h2, if_false, if_pos rfl] at h
        rcases List.mem_cons.mp h with h3 | h3
        · exact Or.inr (Or.inl h3)
        · rcases List.mem_cons.mp h3 with h4 | h4
          · exact Or.inr (Or.inl h4)
          · rcases ih h4 with h5 | h5
            · exact Or.inl (List.mem_cons_of_mem c h5)
            · exact Or.inr h5
      · simp only [h1, h2, if_false] at h
        rcases List.mem_cons.mp h with h3 | h3
        · exact Or.inl (h3 ▸ List.mem_cons_self c rest)
        · rcases ih h3 with h4 | h4
          · exact Or.inl (List.mem_cons_of_mem c h4)
          · exact Or.inr h4

/-- The JSON serialization of a newline-free string list has no newline. -/
theorem stringifyList_no_newline (l : List String) (h : okStrs l) :
    '\n' ∉ (stringifyList l).data := by
  intro hm
  rw [stringifyList] at hm
  rcases List.mem_cons.mp hm with h1 | h1
  · exact absurd h1.symm (by decide)
  · rcases List.mem_append.mp h1 with h2 | h2
    · rcases mem_joinCells _ _ h2 with h3 | ⟨cell, hcell, hxl⟩
      · exact absurd h3 (by decide)
      · rcases List.mem_map.mp hcell with ⟨s, hs, rfl⟩
        rcases List.mem_cons.mp hxl with h4 | h4
        · exact absurd h4.symm (by decide)
        · rcases List.mem_append.mp h4 with h5 | h5
          · rcases mem_of_mem_escJSON _ _ h5 with h6 | h6 | h6
            · exact h s hs h6
            · exact absurd h6 (by decide)
            · exact absurd h6 (by decide)
          · simp at h5
    · simp at h2

/-- The JSON serialization starts with `[`. -/
theorem stringifyList_head (l : List String) :
    (stringifyList l).data.head? = some '[' := rfl

/-- The JSON serialization ends with `]`. -/
theorem stringifyList_last (l : List String) :
    (stringifyList l).data.getLast? = some ']' := by
  show ('[' :: (joinCells _ ++ [']'])).getLast? = some ']'
  rw [← List.cons_append, List.getLast?_concat]

/-- The JSON serialization is a round-trip-safe cell. -/
theorem okField_stringifyList (l : List String) (h : okStrs l) :
    okField (stringifyList l).data := by
  refine ⟨stringifyList_no_newline l h, ?_, ?_⟩
  · exact trimChars_of_ends _ '[' ']' (stringifyList_head l) (by decide)
      (stringifyList_last l) (by decide)
  · rintro ⟨h1, -⟩
    rw [stringifyList_head l] at h1
    exact absurd (Option.some.inj h1) (by decide)

/-! ## Round trip of the modelled JSON codec -/

theorem mk_data (s : String) : String.mk s.data = s := rfl

theorem jia_state0_quote (rest cur : List Char) (acc : List String) :
    jsonItemsAux ('"' :: rest) 0 cur acc = jsonItemsAux rest 1 cur acc := by
  simp [jsonItemsAux]

theorem jia_state1_esc (rest cur : List Char) (acc : List String) :
    jsonItemsAux ('\\' :: rest) 1 cur acc = jsonItemsAux rest 2 cur acc := by
  simp [jsonItemsAux]

theorem jia_state1_quote (rest cur : List Char) (acc : List String) :
    jsonItemsAux ('"' :: rest) 1 cur acc
      = jsonItemsAux rest 3 [] (acc ++ [String.mk cur]) := by
  simp [jsonItemsAux]

theorem jia_state1_other (c : Char) (rest cur : List Char) (acc : List String)
    (h1 : c ≠ '\\') (h2 : c ≠ '"') :
    jsonItemsAux (c :: rest) 1 cur acc = jsonItemsAux rest 1 (cur ++ [c]) acc := by
  simp [jsonItemsAux, h1, h2]

theorem jia_state2 (c d : Char) (rest cur : List Char) (acc : List String)
    (h : jsonUnescape c = some d) :
    jsonItemsAux (c :: rest) 2 cur acc = jsonItemsAux rest 1 (cur ++ [d]) acc := by
  simp [jsonItemsAux, h]

theorem jia_state3_comma (rest cur : List Char) (acc : List String) :
    jsonItemsAux (',' :: rest) 3 cur acc = jsonItemsAux rest 0 [] acc := by
  simp [jsonItemsAux]

theorem jia_state3_end (cur : List Char) (acc : List String) :
    jsonItemsAux [']'] 3 cur acc = some acc := by
  simp [jsonItemsAux]

theorem jsonItemsAux_string (t : List Char) :
    ∀ cur acc rest,
      jsonItemsAux (escJSONChars t ++ '"' :: rest) 1 cur acc
        = jsonItemsAux rest 3 [] (acc ++ [String.mk (cur ++ t)]) := by
  induction t with
  | nil =>
    intro cur acc rest
    show jsonItemsAux ('"' :: rest) 1 cur acc = _
    rw [jia_state1_quote]
    simp
  | cons c t ih =>
    intro cur acc rest
    by_cases h1 : c = '"'
    · subst h1
      show jsonItemsAux ('\\' :: '"' :: (escJSONChars t ++ '"' :: rest)) 1 cur acc = _
      rw [jia_state1_esc, jia_state2 '"' '"' _ _ _ rfl, ih]
      simp
    · by_cases h2 : c = '\\'
      · subst h2
        show jsonItemsAux ('\\' :: '\\' :: (escJSONChars t ++ '"' :: rest)) 1 cur acc = _
        rw [jia_state1_esc, jia_state2 '\\' '\\' _ _ _ rfl, ih]
        simp
      · have : escJSONChars (c :: t) = c :: escJSONChars t := by
          simp [escJSONChars, h1, h2]
        rw [this, List.cons_append, jia_state1_other c _ _ _ h2 h1, ih]
        simp

theorem jsonItemsAux_run (l : List String) (hne : l ≠ []) :
    ∀ acc,
      jsonItemsAux
        (joinCells (l.map (fun s => '"' :: (escJSONChars s.data ++ ['"']))) ++ [']'])
        0 [] acc = some (acc ++ l) := by
  induction l with
  | nil => exact absurd rfl hne
  | cons s l ih =>
    intro acc
    cases l with
    | nil =>
      show jsonItemsAux (('"' :: (escJSONChars s.data ++ ['"'])) ++ [']']) 0 [] acc = _
      rw [List.cons_append, jia_state0_quote, List.append_assoc,
        List.singleton_append, jsonItemsAux_string, jia_state3_end]
      simp [mk_data]
    | cons s2 l2 =>
      rw [List.map_cons, joinCells_cons_of_ne _ _ (by simp)]
      simp only [List.cons_append, List.append_assoc, List.singleton_append]
      rw [jia_state0_quote, jsonItemsAux_string]
      simp only [List.nil_append]
      rw [jia_state3_comma, ih (by simp)]
      simp [mk_data]

/-- The modelled `JSON.parse` inverts the modelled `JSON.stringify` on
every array of strings. -/
theorem jsonParse_stringify (l : List String) :
    jsonParseList (stringifyList l).data = some l := by
  cases l with
  | nil => rfl
  | cons s rest =>
    show jsonParseList ('[' :: (joinCells _ ++ [']'])) = _
    have hrun := jsonItemsAux_run (s :: rest) (by simp) []
    rw [List.map_cons] at hrun ⊢
    cases rest with
    | nil =>
      rw [jsonParseList.eq_def]
      simp only [List.map_nil, joinCells, List.cons_append] at hrun ⊢
      exact hrun
    | cons s2 l2 =>
      rw [jsonParseList.eq_def]
      rw [joinCells_cons_of_ne _ _ (by simp)] at hrun ⊢
      simp only [List.cons_append] at hrun ⊢
      exact hrun

/-! ## Round trip of the accounts file -/

/-- The written header line parses back to the canonical header names. -/
theorem headers_canonical :
    (splitOnChar ',' headerChars).map (fun h => String.mk (trimChars h)) = accountHeaders := by
  decide

set_option maxHeartbeats 1000000 in
/-- `mkAccount` on the canonical headers and an explicit 14-value row. -/
theorem mkAccount_canonical (v0 v1 v2 v3 v4 v5 v6 v7 v8 v9 v10 v11 v12 v13 : List Char) :
    mkAccount accountHeaders [v0, v1, v2, v3, v4, v5, v6, v7, v8, v9, v10, v11, v12, v13]
      = { user_id := String.mk v0
          name := String.mk v1
          grade := String.mk v2
          gpa := String.mk v3
          weighted :=
            if v4 = "true".data then WVal.b true
            else if v4 = "false".data then WVal.b false
            else WVal.s (String.mk v4)
          sat := String.mk v5
          act := String.mk v6
          psat := String.mk v7
          majors := if v8 = [] then [] else (jsonParseList v8).getD []
          activities := String.mk v9
          interests := if v10 = [] then [] else (jsonParseList v10).getD []
          career_goals := String.mk v11
          created_at := String.mk v12
          updated_at := String.mk v13 } := rfl

/-- Every written cell of a sane account is round-trip safe. -/
theorem rowCells_okField (a : Account) (h : SaneAccount a) :
    ∀ v ∈ (rowCells a).map (fun s => s.data), okField v := by
  obtain ⟨h1, h2, h3, h4, hw, h5, h6, h7, hm, h9, hi, h11, h12, h13⟩ := h
  intro v hv
  simp only [rowCells, List.map_cons, List.map_nil, List.mem_cons,
    List.not_mem_nil, or_false] at hv
  rcases hv with rfl | rfl | rfl | rfl | rfl | rfl | rfl | rfl | rfl | rfl | rfl | rfl | rfl | rfl
  · exact h1
  · exact h2
  · exact h3
  · exact h4
  · rcases hw with hw | hw <;> rw [hw] <;> decide
  · exact h5
  · exact h6
  · exact h7
  · exact okField_stringifyList _ hm
  · exact h9
  · exact okField_stringifyList _ hi
  · exact h11
  · exact h12
  · exact h13

/-- Scanning a written row recovers the cell values. -/
theorem scan_rowChars (a : Account) (h : SaneAccount a) :
    scanAccountLine (rowChars a) false [] = (rowCells a).map (fun s => s.data) := by
  have hj : rowChars a = encodeRowChars ((rowCells a).map (fun s => s.data)) := by
    rw [rowChars, encodeRowChars, List.map_map]
    rfl
  rw [hj, scan_encodeRow _ (by simp [rowCells])]
  have := rowCells_okField a h
  calc ((rowCells a).map (fun s => s.data)).map (fun g => parseCSVValue (trimChars g))
      = ((rowCells a).map (fun s => s.data)).map id := by
        apply List.map_congr_left
        intro v hv
        exact pcv_trim_of_okField v (this v hv)
    _ = (rowCells a).map (fun s => s.data) := List.map_id _

/-- Reconstructing an account from its own written cells is the identity. -/
theorem mkAccount_rowCells (a : Account) (h : SaneAccount a) :
    mkAccount accountHeaders ((rowCells a).map (fun s => s.data)) = a := by
  obtain ⟨-, -, -, -, hw, -, -, -, hm, -, hi, -, -, -⟩ := h
  have hmap : (rowCells a).map (fun s => s.data)
      = [a.user_id.data, a.name.data, a.grade.data, a.gpa.data,
         (weightedCell a.weighted).data, a.sat.data, a.act.data, a.psat.data,
         (stringifyList a.majors).data, a.activities.data,
         (stringifyList a.interests).data, a.career_goals.data,
         a.created_at.data, a.updated_at.data] := by
    simp [rowCells]
  rw [hmap, mkAccount_canonical]
  have hmaj : (if (stringifyList a.majors).data = [] then []
      else (jsonParseList (stringifyList a.majors).data).getD []) = a.majors := by
    rw [if_neg, jsonParse_stringify]
    · rfl
    · intro hq
      have := stringifyList_head a.majors
      rw [hq] at this
      exact absurd this (by decide)
  have hint : (if (stringifyList a.interests).data = [] then []
      else (jsonParseList (stringifyList a.interests).data).getD []) = a.interests := by
    rw [if_neg, jsonParse_stringify]
    · rfl
    · intro hq
      have := stringifyList_head a.interests
      rw [hq] at this
      exact absurd this (by decide)
  have hwv : (if (weightedCell a.weighted).data = "true".data then WVal.b true
      else if (weightedCell a.weighted).data = "false".data then WVal.b false
      else WVal.s (String.mk (weightedCell a.weighted).data)) = a.weighted := by
    rcases hw with hw | hw <;> rw [hw] <;> decide
  rw [hmaj, hint, hwv]

/-- A sane account's row contains no newline. -/
theorem rowChars_no_newline (a : Account) (h : SaneAccount a) : '
' ∉ rowChars a := by
  intro hm
  rw [rowChars] at hm
  rcases mem_joinCells _ _ hm with hc | ⟨cell, hcell, hxl⟩
  · exact absurd hc (by decide)
  · rcases List.mem_map.mp hcell with ⟨s, hs, rfl⟩
    have hok : okField s.data := by
      apply rowCells_okField a h
      exact List.mem_map.mpr ⟨s, hs, rfl⟩
    exact escapeCSVChars_no_newline s.data hok.1 hxl

/-- A written row is never a blank line. -/
theorem rowChars_nonblank (a : Account) : trimChars (rowChars a) ≠ [] := by
  apply trimChars_ne_nil_of_mem _ ',' _ (by decide)
  rw [rowChars, rowCells]
  simp only [List.map_cons]
  exact comma_mem_joinCells _ _ _

/-- Splitting the written file on newlines gives the header line, the rows,
and one trailing empty piece. -/
theorem splitNL_write (L : List Account) (h : ∀ a ∈ L, SaneAccount a) :
    splitOnChar '
' (writeAccountsChars L) = headerChars :: (L.map rowChars ++ [[]]) := by
  rw [writeAccountsChars, splitOnChar_chunk '
' headerChars _ (by decide)]
  congr 1
  induction L with
  | nil => simp [splitOnChar]
  | cons a L ih =>
    simp only [List.foldr_cons]
    rw [splitOnChar_chunk '
' _ _ (rowChars_no_newline a (h a (List.mem_cons_self a L)))]
    rw [ih (fun b hb => h b (List.mem_cons_of_mem a hb))]
    simp

/-- After dropping blank lines, the written file is the header plus rows. -/
theorem writeAccounts_filtered (L : List Account) (h : ∀ a ∈ L, SaneAccount a) :
    (splitOnChar '
' (writeAccountsChars L)).filter (fun l => trimChars l ≠ [])
      = headerChars :: L.map rowChars := by
  rw [splitNL_write L h]
  rw [List.filter_cons, List.filter_append]
  have h1 : (decide (trimChars headerChars ≠ [])) = true := by decide
  have h2 : (L.map rowChars).filter (fun l => decide (trimChars l ≠ [])) = L.map rowChars := by
    apply List.filter_eq_self.mpr
    intro l hl
    rcases List.mem_map.mp hl with ⟨a, -, rfl⟩
    simpa using rowChars_nonblank a
  have h3 : ([[]] : List (List Char)).filter (fun l => decide (trimChars l ≠ [])) = [] := by
    decide
  simp only [h1, if_pos, h2, h3, List.append_nil]

/-- The row-decoding pass of `readAccounts` inverts the row encoding on a
sane store. -/
theorem filterMap_rows (L : List Account) (h : ∀ a ∈ L, SaneAccount a) :
    (L.map rowChars).filterMap (fun line =>
      if accountHeaders.length ≤ (scanAccountLine line false []).length then
        some (mkAccount accountHeaders (scanAccountLine line false []))
      else none) = L := by
  induction L with
  | nil => rfl
  | cons a L ih =>
    have ha : SaneAccount a := h a (List.mem_cons_self a L)
    rw [List.map_cons, List.filterMap_cons, scan_rowChars a ha]
    have hlen : accountHeaders.length ≤ ((rowCells a).map (fun s => s.data)).length := by
      simp [rowCells, accountHeaders]
    rw [if_pos hlen, mkAccount_rowCells a ha, ih (fun b hb => h b (List.mem_cons_of_mem a hb))]

/-- Reading back a sane written store recovers it exactly. -/
theorem read_write (L : List Account) (h : ∀ a ∈ L, SaneAccount a) :
    readAccountsText (writeAccountsChars L) = L := by
  rw [readAccountsText, writeAccounts_filtered L h]
  cases L with
  | nil => rfl
  | cons a L =>
    simp only [List.map_cons, headers_canonical]
    exact filterMap_rows (a :: L) h

/-! ## Lemmas about `saveAccount`'s list transformation -/

theorem okField_empty : okField ("" : String).data := by decide

theorem okField_getD (o : Option String) (s : String) (ho : okOptF o)
    (hs : okField s.data) : okField (o.getD s).data := by
  cases o with
  | none => exact hs
  | some v => exact ho

theorem okStrs_getD (o : Option (List String)) (l : List String) (ho : okOptL o)
    (hl : okStrs l) : okStrs (o.getD l) := by
  cases o with
  | none => exact hl
  | some v => exact ho

theorem okField_jsOrOpt (o : Option String) (d : String) (ho : okOptF o)
    (hd : okField d.data) : okField (jsOrOpt o d).data := by
  cases o with
  | none => exact hd
  | some v =>
    rw [jsOrOpt]
    by_cases hv : v = ""
    · rw [if_pos hv]; exact hd
    · rw [if_neg hv]; exact ho

theorem okField_jsOr2 (a b : Option String) (d : String) (ha : okOptF a)
    (hb : okOptF b) (hd : okField d.data) : okField (jsOr2 a b d).data := by
  cases a with
  | none => exact okField_jsOrOpt b d hb hd
  | some v =>
    rw [jsOr2]
    by_cases hv : v = ""
    · rw [if_pos hv]; exact okField_jsOrOpt b d hb hd
    · rw [if_neg hv]; exact ha

theorem mergeAccount_sane (a : Account) (d : AccountData) (now : String)
    (ha : SaneAccount a) (hd : SaneData d) (hn : okField now.data) :
    SaneAccount (mergeAccount a d now) := by
  obtain ⟨a1, a2, a3, a4, aw, a5, a6, a7, am, a9, ai, a11, a12, a13⟩ := ha
  obtain ⟨d1, d2, d3, d4, d5, d6, d7, dm, d9, di, d11, d12, d13⟩ := hd
  refine ⟨d1, okField_getD _ _ d2 a2, okField_getD _ _ d3 a3, okField_getD _ _ d4 a4,
    ?_, okField_getD _ _ d5 a5, okField_getD _ _ d6 a6, okField_getD _ _ d7 a7,
    okStrs_getD _ _ dm am, okField_getD _ _ d9 a9, okStrs_getD _ _ di ai,
    okField_getD _ _ d11 a11, okField_getD _ _ d13 a12, hn⟩
  rw [mergeAccount]
  cases hw : d.weighted with
  | none => exact aw
  | some b => cases b <;> simp

theorem newAccount_sane (d : AccountData) (now : String)
    (hd : SaneData d) (hn : okField now.data) : SaneAccount (newAccount d now) := by
  obtain ⟨d1, d2, d3, d4, d5, d6, d7, dm, d9, di, d11, d12, d13⟩ := hd
  refine ⟨d1, okField_jsOrOpt _ _ d2 okField_empty, okField_jsOrOpt _ _ d3 okField_empty,
    okField_jsOrOpt _ _ d4 okField_empty, ?_, okField_jsOrOpt _ _ d5 okField_empty,
    okField_jsOrOpt _ _ d6 okField_empty, okField_jsOrOpt _ _ d7 okField_empty,
    okStrs_getD _ _ dm (by intro s hs; simp at hs), okField_jsOrOpt _ _ d9 okField_empty,
    okStrs_getD _ _ di (by intro s hs; simp at hs),
    okField_jsOr2 _ _ _ d11 d12 okField_empty, hn, hn⟩
  rw [newAccount]
  cases d.weighted.getD true <;> simp

theorem saveList_sane (L : List Account) (d : AccountData) (now : String)
    (hL : ∀ a ∈ L, SaneAccount a) (hd : SaneData d) (hn : okField now.data) :
    ∀ a ∈ saveList L d now, SaneAccount a := by
  induction L with
  | nil =>
    intro a ha
    rw [saveList] at ha
    rcases List.mem_singleton.mp ha with rfl
    exact newAccount_sane d now hd hn
  | cons b L ih =>
    intro a ha
    rw [saveList] at ha
    by_cases hb : b.user_id = d.user_id
    · rw [if_pos hb] at ha
      rcases List.mem_cons.mp ha with rfl | ha2
      · exact mergeAccount_sane b d now (hL b (List.mem_cons_self b L)) hd hn
      · exact hL a (List.mem_cons_of_mem b ha2)
    · rw [if_neg hb] at ha
      rcases List.mem_cons.mp ha with rfl | ha2
      · exact hL a (List.mem_cons_self a L)
      · exact ih (fun x hx => hL x (List.mem_cons_of_mem b hx)) a ha2

theorem saveList_of_not_mem (L : List Account) (d : AccountData) (now : String)
    (h : d.user_id ∉ L.map (fun a => a.user_id)) :
    saveList L d now = L ++ [newAccount d now] := by
  induction L with
  | nil => rfl
  | cons b L ih =>
    have hb : b.user_id ≠ d.user_id := by
      intro he
      exact h (List.mem_map.mpr ⟨b, List.mem_cons_self b L, he⟩)
    rw [saveList, if_neg hb, ih (fun hm => h (by
      rcases List.mem_map.mp hm with ⟨x, hx, he⟩
      exact List.mem_map.mpr ⟨x, List.mem_cons_of_mem b hx, he⟩))]
    rfl

theorem saveList_replace_first (L1 : List Account) (a : Account) (L2 : List Account)
    (d : AccountData) (now : String)
    (h1 : d.user_id ∉ L1.map (fun x => x.user_id)) (h2 : a.user_id = d.user_id) :
    saveList (L1 ++ a :: L2) d now = L1 ++ mergeAccount a d now :: L2 := by
  induction L1 with
  | nil => simp [saveList, h2]
  | cons b L1 ih =>
    have hb : b.user_id ≠ d.user_id := by
      intro he
      exact h1 (List.mem_map.mpr ⟨b, List.mem_cons_self b L1, he⟩)
    rw [List.cons_append, saveList, if_neg hb, ih (fun hm => h1 (by
      rcases List.mem_map.mp hm with ⟨x, hx, he⟩
      exact List.mem_map.mpr ⟨x, List.mem_cons_of_mem b hx, he⟩))]
    rfl

theorem saveList_ids_sub (L : List Account) (d : AccountData) (now : String) :
    ∀ x ∈ (saveList L d now).map (fun a => a.user_id),
      x ∈ L.map (fun a => a.user_id) ∨ x = d.user_id := by
  induction L with
  | nil =>
    intro x hx
    rw [saveList] at hx
    rcases List.mem_map.mp hx with ⟨b, hb, rfl⟩
    rcases List.mem_singleton.mp hb with rfl
    exact Or.inr rfl
  | cons b L ih =>
    intro x hx
    rw [saveList] at hx
    by_cases hb : b.user_id = d.user_id
    · rw [if_pos hb] at hx
      rcases List.mem_map.mp hx with ⟨c, hc, rfl⟩
      rcases List.mem_cons.mp hc with rfl | hc2
      · exact Or.inr rfl
      · exact Or.inl (List.mem_map.mpr ⟨c, List.mem_cons_of_mem b hc2, rfl⟩)
    · rw [if_neg hb] at hx
      rcases List.mem_map.mp hx with ⟨c, hc, rfl⟩
      rcases List.mem_cons.mp hc with rfl | hc2
      · exact Or.inl (List.mem_map.mpr ⟨c, List.mem_cons_self c L, rfl⟩)
      · rcases ih c.user_id (List.mem_map.mpr ⟨c, hc2, rfl⟩) with h | h
        · exact Or.inl (by
            rcases List.mem_map.mp h with ⟨e, he, hee⟩
            exact List.mem_map.mpr ⟨e, List.mem_cons_of_mem b he, hee⟩)
        · exact Or.inr h

theorem saveList_nodup (L : List Account) (d : AccountData) (now : String)
    (h : (L.map (fun a => a.user_id)).Nodup) :
    ((saveList L d now).map (fun a => a.user_id)).Nodup := by
  induction L with
  | nil => simp [saveList]
  | cons b L ih =>
    rw [List.map_cons, List.nodup_cons] at h
    obtain ⟨hb, hL⟩ := h
    rw [saveList]
    by_cases he : b.user_id = d.user_id
    · rw [if_pos he, List.map_cons, List.nodup_cons]
      refine ⟨?_, hL⟩
      rw [mergeAccount]
      simpa [← he] using hb
    · rw [if_neg he, List.map_cons, List.nodup_cons]
      refine ⟨?_, ih hL⟩
      intro hm
      rcases saveList_ids_sub L d now _ hm with h2 | h2
      · exact hb h2
      · exact he h2

/-- `find?` skips a prefix with no matches. -/
theorem find_append_of_none (p : Account → Bool) (l1 l2 : List Account)
    (h : ∀ x ∈ l1, p x = false) :
    (l1 ++ l2).find? p = l2.find? p := by
  induction l1 with
  | nil => rfl
  | cons b l1 ih =>
    rw [List.cons_append, List.find?]
    rw [h b (List.mem_cons_self b l1)]
    exact ih (fun x hx => h x (List.mem_cons_of_mem b hx))

/-! ## Lemmas for the catalog query -/

theorem length_mapWithIndex (f : Nat → α → β) : ∀ (i : Nat) (l : List α),
    (mapWithIndex f i l).length = l.length := by
  intro i l
  induction l generalizing i with
  | nil => rfl
  | cons a l ih => rw [mapWithIndex, List.length_cons, List.length_cons, ih]

theorem matchesSearch_empty (r : CRow) : matchesSearch "" r = true := by
  have h : toLowerStr "" = "" := rfl
  simp [matchesSearch, jsIncludes, h]

/-! ## Claim theorems -/

/-- **C6** — For every dataset, search text, and valid positive-integer
`page` and `perPage`, the catalog query returns the slice
`[(page-1)*perPage, (page-1)*perPage + perPage)` of the filtered-and-mapped
entries, so the returned result count equals
`min(perPage, max(0, total - (page-1)*perPage))`, and an out-of-range
start yields an empty result list rather than an error. -/
theorem c6_pagination (rows : List CRow) (search : Option String) (p pp : Nat)
    (hp : 1 ≤ p) (hpp : 1 ≤ pp) :
    (collegesQuery rows search p pp).results
        = ((mapWithIndex (fun i r => transformCollege r i) 0
            (searchFilter search rows)).drop ((p - 1) * pp)).take pp
    ∧ (collegesQuery rows search p pp).results.length
        = min pp ((collegesQuery rows search p pp).total - (p - 1) * pp)
    ∧ ((collegesQuery rows search p pp).results.length : ℤ)
        = min (pp : ℤ)
            (max 0 (((collegesQuery rows search p pp).total : ℤ) - ((p : ℤ) - 1) * (pp : ℤ)))
    ∧ ((collegesQuery rows search p pp).total ≤ (p - 1) * pp →
        (collegesQuery rows search p pp).results = []) := by
  have hres : (collegesQuery rows search p pp).results
      = ((mapWithIndex (fun i r => transformCollege r i) 0
          (searchFilter search rows)).drop ((p - 1) * pp)).take pp := rfl
  have htot : (collegesQuery rows search p pp).total
      = (mapWithIndex (fun i r => transformCollege r i) 0
          (searchFilter search rows)).length := rfl
  refine ⟨hres, ?_, ?_, ?_⟩
  · rw [hres, htot, List.length_take, List.length_drop]
  · have h1 : (collegesQuery rows search p pp).results.length
        = min pp ((collegesQuery rows search p pp).total - (p - 1) * pp) := by
      rw [hres, htot, List.length_take, List.length_drop]
    have hs : (((p - 1) * pp : ℕ) : ℤ) = ((p : ℤ) - 1) * (pp : ℤ) := by
      rw [Nat.cast_mul, Nat.cast_sub hp]
      norm_num
    rw [← hs]
    omega
  · intro hle
    rw [hres]
    rw [htot] at hle
    rw [List.drop_eq_nil_of_le hle, List.take_nil]

/-- **C7** — A dataset row is retained by the search filter iff its name,
city, or state contains the search text as a case-insensitive substring;
the reported total counts the retained (then mapped) entries before
pagination; with no search text every row is retained. -/
theorem c7_search (rows : List CRow) (s : String) (p pp : Nat) :
    (collegesQuery rows (some s) p pp).total = (rows.filter (matchesSearch s)).length
    ∧ (∀ r, r ∈ rows.filter (matchesSearch s) ↔ r ∈ rows ∧
        ((toLowerStr s).data <:+: (toLowerStr (jsGetRow r "name")).data ∨
         (toLowerStr s).data <:+: (toLowerStr (jsGetRow r "city")).data ∨
         (toLowerStr s).data <:+: (toLowerStr (jsGetRow r "state")).data))
    ∧ (collegesQuery rows none p pp).total = rows.length := by
  refine ⟨?_, ?_, ?_⟩
  · show (mapWithIndex (fun i r => transformCollege r i) 0
        (if s ≠ "" then rows.filter (matchesSearch s) else rows)).length = _
    by_cases he : s = ""
    · subst he
      rw [if_neg (by simp), length_mapWithIndex]
      rw [List.filter_eq_self.mpr (fun r _ => matchesSearch_empty r)]
    · rw [if_pos he, length_mapWithIndex]
  · intro r
    rw [List.mem_filter]
    constructor
    · rintro ⟨h1, h2⟩
      refine ⟨h1, ?_⟩
      simp [matchesSearch, jsIncludes] at h2
      tauto
    · rintro ⟨h1, h2⟩
      refine ⟨h1, ?_⟩
      simp [matchesSearch, jsIncludes]
      tauto
  · show (mapWithIndex (fun i r => transformCollege r i) 0 rows).length = _
    rw [length_mapWithIndex]

/-- **C8** — On every call to the dataset-cache getter: a fresh snapshot is
returned unchanged; no snapshot or an elapsed time beyond 5 minutes causes
a reload that replaces snapshot and timestamp; a failed reload stores an
empty dataset while still updating the timestamp. -/
theorem c8_cache (st : CacheState) (now : Nat) (file : Option (List Char)) :
    (∀ c t, st.cache = some c → st.cacheTime = some t → t ≠ 0 →
        now - t ≤ CACHE_DURATION → getCollegeData st now file = (c, st))
    ∧ ((st.cache = none ∨ st.cacheTime = none ∨
          (∃ t, st.cacheTime = some t ∧ now - t > CACHE_DURATION)) →
        getCollegeData st now file
          = (loadCollegeData file, ⟨some (loadCollegeData file), some now⟩))
    ∧ ((st.cache = none ∨ st.cacheTime = none ∨
          (∃ t, st.cacheTime = some t ∧ now - t > CACHE_DURATION)) → file = none →
        getCollegeData st now file = ([], ⟨some [], some now⟩)) := by
  refine ⟨?_, ?_, ?_⟩
  · intro c t hc ht ht0 hle
    have hstale : cacheIsStale st now = false := by
      rw [cacheIsStale, hc, ht]
      simp [ht0]
      omega
    rw [getCollegeData, hstale]
    simp [hc]
  · intro hst
    have hstale : cacheIsStale st now = true := by
      rw [cacheIsStale]
      rcases hst with h | h | ⟨t, ht, hgt⟩
      · simp [h]
      · simp [h]
      · rw [ht]
        simp
        omega
    rw [getCollegeData, hstale]
    simp
  · intro hst hf
    have hstale : cacheIsStale st now = true := by
      rw [cacheIsStale]
      rcases hst with h | h | ⟨t, ht, hgt⟩
      · simp [h]
      · simp [h]
      · rw [ht]
        simp
        omega
    rw [getCollegeData, hstale, hf]
    rfl

/-- Witness for the hypotheses of `c8_cache` at concrete inputs. -/
theorem c8_cache_witness :
    getCollegeData ⟨some [[("name", "A")]], some 5⟩ 10 none = ([[("name", "A")]], ⟨some [[("name", "A")]], some 5⟩)
    ∧ getCollegeData ⟨none, none⟩ 10 none = ([], ⟨some [], some 10⟩) := by
  constructor
  · exact (c8_cache ⟨some [[("name", "A")]], some 5⟩ 10 none).1 _ 5 rfl rfl (by decide) (by decide)
  · exact (c8_cache ⟨none, none⟩ 10 none).2.2 (Or.inl rfl) rfl

/-- **C9** — A read failure yields an empty record list without raising; a
write failure is reported to the caller as boolean `false`, not an error. -/
theorem c9_failure :
    readAccountsOpt none = []
    ∧ ∀ (accounts : List Account) (fsWrite : List Char → Option Unit),
        fsWrite (writeAccountsChars accounts) = none →
        writeAccountsRes accounts fsWrite = false := by
  refine ⟨rfl, ?_⟩
  intro accounts fs h
  rw [writeAccountsRes, h]

/-- Witness for the hypothesis of `c9_failure` at concrete inputs. -/
theorem c9_failure_witness :
    readAccountsOpt none = [] ∧ writeAccountsRes [] (fun _ => none) = false :=
  ⟨c9_failure.1, c9_failure.2 [] (fun _ => none) rfl⟩

/-! ## Helpers for the amended claims -/

theorem pcv_of_head_ne (l : List Char) (h : l.head? ≠ some '"') :
    parseCSVValue l = l := by
  rw [parseCSVValue, if_neg]
  rintro ⟨h1, -⟩
  exact h h1

theorem pcv_of_no_quote (l : List Char) (h : '"' ∉ l) : parseCSVValue l = l := by
  apply pcv_of_head_ne
  intro h1
  cases l with
  | nil => simp at h1
  | cons c t =>
    simp at h1
    exact h (h1 ▸ List.mem_cons_self c t)

theorem jsOrStr_self (s : String) : jsOrStr s "" = s := by
  rw [jsOrStr]
  by_cases h : s = ""
  · rw [if_pos h, h]
  · rw [if_neg h]

theorem jsOrOpt_some_empty (s : String) : jsOrOpt (some s) "" = s := by
  rw [jsOrOpt]
  by_cases h : s = ""
  · rw [if_pos h, h]
  · rw [if_neg h]

/-- An encoded row of newline-free fields has no newline. -/
theorem encodeRowChars_no_newline (fields : List (List Char))
    (h : ∀ f ∈ fields, '\n' ∉ f) : '\n' ∉ encodeRowChars fields := by
  intro hm
  rw [encodeRowChars] at hm
  rcases mem_joinCells _ _ hm with hc | ⟨cell, hcell, hxl⟩
  · exact absurd hc (by decide)
  · rcases List.mem_map.mp hcell with ⟨f, hf, rfl⟩
    exact escapeCSVChars_no_newline f (h f hf) hxl

/-- Splitting a list at the first element whose key matches. -/
theorem first_split (L : List Account) (k : String)
    (h : k ∈ L.map (fun a => a.user_id)) :
    ∃ L1 a L2, L = L1 ++ a :: L2 ∧ a.user_id = k
      ∧ k ∉ L1.map (fun a => a.user_id) := by
  induction L with
  | nil => simp at h
  | cons b L ih =>
    by_cases hb : b.user_id = k
    · exact ⟨[], b, L, rfl, hb, by simp⟩
    · have h2 : k ∈ L.map (fun a => a.user_id) := by
        rcases List.mem_map.mp h with ⟨x, hx, hxx⟩
        rcases List.mem_cons.mp hx with rfl | hx2
        · exact absurd hxx hb
        · exact List.mem_map.mpr ⟨x, hx2, hxx⟩
      rcases ih h2 with ⟨L1, a, L2, rfl, ha, hn1⟩
      refine ⟨b :: L1, a, L2, rfl, ha, ?_⟩
      intro hm
      rcases List.mem_map.mp hm with ⟨x, hx, hxx⟩
      rcases List.mem_cons.mp hx with rfl | hx2
      · exact hb hxx
      · exact hn1 (List.mem_map.mpr ⟨x, hx2, hxx⟩)

/-- The POST handler's payload is sane whenever the request body is. -/
theorem toAccountData_sane (p : ProfileIn) (hp : SaneProfileIn p) :
    SaneData (toAccountData p) := by
  obtain ⟨p1, p2, p3, p4, p5, p6, p7, pm, p9, pi, p11, p12⟩ := hp
  exact ⟨p1, okField_jsOrOpt _ _ p2 okField_empty, okField_jsOrOpt _ _ p3 okField_empty,
    okField_jsOrOpt _ _ p4 okField_empty, okField_jsOrOpt _ _ p5 okField_empty,
    okField_jsOrOpt _ _ p6 okField_empty, okField_jsOrOpt _ _ p7 okField_empty,
    okStrs_getD _ _ pm (by intro s hs; simp at hs),
    okField_jsOrOpt _ _ p9 okField_empty,
    okStrs_getD _ _ pi (by intro s hs; simp at hs),
    okField_jsOr2 _ _ _ p11 p12 okField_empty, trivial, trivial⟩

/-! ## Concrete data for the counterexamples -/

/-- The stored record of the C1 scenario. -/
def aliceAccount : Account :=
  { user_id := "u1", name := "Alice", grade := "", gpa := "3.9",
    weighted := WVal.b true, sat := "", act := "", psat := "",
    majors := ["CS"], activities := "", interests := [],
    career_goals := "", created_at := "t0", updated_at := "t0" }

/-- The C1 save request: only `user_id` and `name` supplied. -/
def c1Request : ProfileIn := { user_id := "u1", name := some "Alice B" }

/-- An upsert payload whose `name` embeds a newline followed by a full
crafted CSV row keyed `u1`. -/
def c4Inject : AccountData :=
  { user_id := "u1", name := some "\nu1,a,a,a,true,a,a,a,[],a,[],a,a,a" }

/-- A benign first upsert. -/
def c5First : AccountData := { user_id := "u1", name := some "n" }

/-- A second upsert, keyed `u2`, whose `name` injects a row keyed `u1`. -/
def c5Second : AccountData :=
  { user_id := "u2", name := some "\nu1,a,a,a,true,a,a,a,[],a,[],a,a,a" }

set_option maxHeartbeats 2000000 in
/-- **C1 counterexample** — saving `{user_id:"u1", name:"Alice B"}` through
`POST /api/profile` over a store holding Alice's record (gpa `"3.9"`,
majors `["CS"]`) yields majors `[]` and gpa `""`, not majors `["CS"]`: the
handler fills every omitted field with its default before the store merge,
so unspecified existing fields are overwritten, contrary to the claim. -/
theorem c1_counterexample :
    (postProfileText (writeAccountsChars [aliceAccount]) c1Request "t1").bind
        (fun t => getProfileResp t "u1")
      = some { user_id := "u1", name := "Alice B", grade := "", gpa := "",
               weighted := WVal.b true, sat := "", act := "", psat := "",
               majors := [], activities := "", interests := [], careerGoals := "" }
    ∧ ([] : List String) ≠ ["CS"] := by
  constructor
  · decide
  · decide

/-- **C2 counterexample** — a field containing an embedded newline does not
round-trip: the reader splits the file on newlines before quote-aware
scanning, so the encoded record `["a\nb"]` decodes as two one-field rows
`["a"]` and `["b"]`. -/
theorem c2_counterexample :
    decodeRows (encodeRow ["a\nb"]) = [["a"], ["b"]]
    ∧ ([["a"], ["b"]] : List (List String)) ≠ [["a\nb"]] := by
  constructor
  · decide
  · decide

/-- **C3 counterexample** — the catalog row decoder (`parseCSV`) does not
decode two consecutive double quotes inside quoted mode to one literal
quote: on the line `"a""b"` it toggles on every quote and produces `ab`
(no quote at all) instead of `a"b`. -/
theorem c3_counterexample :
    parseCSVChars ("h\n\"a\"\"b\"").data = [[("h", "ab")]]
    ∧ ("ab" : String) ≠ "a\"b" := by
  constructor
  · decide
  · decide

set_option maxHeartbeats 4000000 in
/-- **C4 counterexample** — an upsert for the previously-unseen key `u1`
whose `name` embeds a newline plus a crafted row makes the store's reader
drop the genuine row (split mid-quote, too few cells) and parse the
injected line instead, so `findByKey("u1")` returns a record whose
`created_at` (`"a"`) differs from its `updated_at`. -/
theorem c4_counterexample :
    getAccountText (saveTextChars (writeAccountsChars []) c4Inject "2020") "u1"
      = some { user_id := "u1", name := "a", grade := "a", gpa := "a",
               weighted := WVal.b true, sat := "a", act := "a", psat := "a",
               majors := [], activities := "a", interests := [],
               career_goals := "a", created_at := "a",
               updated_at := "a,,,true,,,,[],,[],,2020,2020" }
    ∧ ("a" : String) ≠ "a,,,true,,,,[],,[],,2020,2020" := by
  constructor
  · decide
  · decide

set_option maxHeartbeats 4000000 in
/-- **C5 counterexample** — starting from the freshly initialized store
(no records, identifiers trivially pairwise distinct), the two upserts
`u1` then `u2` (the latter with a newline-injecting `name`) leave the
store holding two records whose identifier is `u1`. -/
theorem c5_counterexample :
    ((readAccountsText
        (applySaves (writeAccountsChars []) [(c5First, "2020"), (c5Second, "2021")])).map
      (fun a => a.user_id)) = ["u1", "u1"]
    ∧ ¬ (["u1", "u1"] : List String).Nodup := by
  constructor
  · decide
  · decide

set_option maxHeartbeats 2000000 in
/-- **C10 counterexample** — a stored record whose `weighted` cell is empty
reads back as the string `""` (the header column is present, so the
property is defined and `!== undefined`), and `GET /api/profile` returns
that empty string, not `true`. -/
theorem c10_counterexample :
    (getProfileResp (headerChars ++ '\n' :: ("u9,nn,,,,,,,[],,[],,t,t\n").data) "u9").map
        (fun r => r.weighted) = some (WVal.s "")
    ∧ WVal.s "" ≠ WVal.b true := by
  constructor
  · decide
  · decide

/-! ## Amended claim theorems -/

/-- **C2 (amended)** — encoding then decoding with the store's reader
returns the original field values for every record whose fields contain
commas and quotes but no embedded newlines, are trim-invariant, and are
not themselves wrapped in double quotes; the record must also not encode
to a blank line (at least two fields, or one nonempty field), since the
reader discards blank lines.  (Embedded newlines break the round trip —
see the counterexample.) -/
theorem c2_amended (fields : List String)
    (hok : ∀ f ∈ fields, okField f.data) (h1 : fields ≠ []) (h2 : fields ≠ [""]) :
    decodeRows (encodeRow fields) = [fields] := by
  have hnl : '\n' ∉ encodeRowChars (fields.map (fun s => s.data)) := by
    apply encodeRowChars_no_newline
    intro f hf
    rcases List.mem_map.mp hf with ⟨s, hs, rfl⟩
    exact (hok s hs).1
  have hdata : (encodeRow fields).data = encodeRowChars (fields.map (fun s => s.data)) := rfl
  rw [decodeRows, hdata, splitOnChar_of_not_mem '\n' _ hnl]
  have hblank : trimChars (encodeRowChars (fields.map (fun s => s.data))) ≠ [] := by
    cases fields with
    | nil => exact absurd rfl h1
    | cons f fs =>
      cases fs with
      | nil =>
        have hf : f ≠ "" := by
          intro he
          exact h2 (by rw [he])
        rw [encodeRowChars]
        simp only [List.map_cons, List.map_nil]
        rw [joinCells]
        rw [escapeCSVChars]
        by_cases hq : needsQuoting f.data
        · rw [if_pos hq]
          exact trimChars_ne_nil_of_mem _ '"' (List.mem_cons_self _ _) (by decide)
        · rw [if_neg hq]
          rw [(hok f (List.mem_cons_self f [])).2.1]
          intro he
          apply hf
          cases f with
          | mk d =>
            show String.mk d = ""
            rw [show d = [] from he]
      | cons g gs =>
        apply trimChars_ne_nil_of_mem _ ',' _ (by decide)
        rw [encodeRowChars]
        simp only [List.map_cons]
        exact comma_mem_joinCells _ _ _
  rw [List.filter_eq_self.mpr (by
    intro l hl
    rcases List.mem_singleton.mp hl with rfl
    simpa using hblank)]
  simp only [List.map_cons, List.map_nil]
  rw [scan_encodeRow _ (by simp [h1])]
  rw [List.map_map, List.map_map]
  have hmap : ∀ s ∈ fields,
      ((String.mk ∘ fun g => parseCSVValue (trimChars g)) ∘ fun s => s.data) s = id s := by
    intro s hs
    show String.mk (parseCSVValue (trimChars s.data)) = s
    rw [pcv_trim_of_okField _ (hok s hs)]
  rw [List.map_congr_left hmap, List.map_id]

/-- Witness for the hypotheses of `c2_amended` at a concrete record with a
comma and a quote in its fields. -/
theorem c2_amended_witness :
    decodeRows (encodeRow ["a,b", "x\"y"]) = [["a,b", "x\"y"]] :=
  c2_amended ["a,b", "x\"y"] (by decide) (by decide) (by decide)

/-- **C3 (amended)** — the account-store row decoder scans character by
character, leaves quoted mode only at an unpaired quote, decodes two
consecutive quotes inside quoted mode to one literal quote, does not split
on commas inside quoted mode, and splits on commas outside it.  (The
catalog parser, by contrast, toggles on every quote and drops doubled
quotes — see the counterexample.) -/
theorem c3_amended :
    (∀ a b : List Char, '"' ∉ a → '"' ∉ b → a ≠ [] →
       trimChars (a ++ '"' :: b) = a ++ '"' :: b →
       scanAccountLine ('"' :: (a ++ ('"' :: '"' :: (b ++ ['"'])))) false [] = [a ++ '"' :: b])
    ∧ (∀ x y : List Char, '"' ∉ x → '"' ∉ y → ',' ∉ x → ',' ∉ y →
       trimChars x = x → trimChars y = y →
       scanAccountLine (x ++ ',' :: y) false [] = [x, y]) := by
  constructor
  · intro a b ha hb hne htrim
    rw [scan_quote_open, scan_append_quoted a ha, scan_quote_pair, scan_append_quoted b hb]
    rw [scan_quote_close _ _ (by simp), scan_nil]
    have hcur : ((([] ++ a) ++ ['"']) ++ b : List Char) = a ++ '"' :: b := by simp
    rw [hcur, htrim, pcv_of_head_ne]
    cases a with
    | nil => exact absurd rfl hne
    | cons c t =>
      intro hh
      simp at hh
      exact ha (hh ▸ List.mem_cons_self c t)
  · intro x y hx hy hcx hcy htx hty
    rw [scan_append_raw x hx hcx, List.nil_append, scan_comma]
    have hy2 := scan_append_raw y hy hcy [] []
    rw [List.append_nil, List.nil_append] at hy2
    rw [hy2, scan_nil, htx, hty, pcv_of_no_quote x hx, pcv_of_no_quote y hy]

/-- Witness for the hypotheses of `c3_amended` at concrete inputs: the
quoted field `"a,x""b"` decodes to the single value `a,x"b`, and the
unquoted line `u,v` splits into two values. -/
theorem c3_amended_witness :
    scanAccountLine ('"' :: ("a,x".data ++ ('"' :: '"' :: ("b".data ++ ['"'])))) false []
        = ["a,x".data ++ '"' :: "b".data]
    ∧ scanAccountLine ("u".data ++ ',' :: "v".data) false [] = ["u".data, "v".data] :=
  ⟨c3_amended.1 "a,x".data "b".data (by decide) (by decide) (by decide) (by decide),
   c3_amended.2 "u".data "v".data (by decide) (by decide) (by decide) (by decide)
     (by decide) (by decide)⟩

/-- The record `find` returns after an upsert: the merge of the first
match, or the appended new record when the key was unseen. -/
theorem saveList_find_total (L : List Account) (d : AccountData) (now : String) :
    ∃ r, (saveList L d now).find? (fun a => decide (a.user_id = d.user_id)) = some r
      ∧ (r = newAccount d now
         ∨ ∃ a, a ∈ L ∧ a.user_id = d.user_id ∧ r = mergeAccount a d now) := by
  by_cases hmem : d.user_id ∈ L.map (fun a => a.user_id)
  · rcases first_split L d.user_id hmem with ⟨L1, a, L2, rfl, ha, hn1⟩
    refine ⟨mergeAccount a d now, ?_, Or.inr ⟨a, by simp, ha, rfl⟩⟩
    rw [saveList_replace_first L1 a L2 d now hn1 ha]
    rw [find_append_of_none _ L1 _ (by
      intro x hx
      simp only [decide_eq_false_iff_not]
      intro he
      exact hn1 (List.mem_map.mpr ⟨x, hx, he⟩))]
    simp [List.find?, mergeAccount]
  · refine ⟨newAccount d now, ?_, Or.inl rfl⟩
    rw [saveList_of_not_mem L d now hmem]
    rw [find_append_of_none _ L _ (by
      intro x hx
      simp only [decide_eq_false_iff_not]
      intro he
      exact hmem (List.mem_map.mpr ⟨x, hx, he⟩))]
    simp [List.find?, newAccount]

/-- **C1 (amended)** — through `POST /api/profile` the handler fills every
omitted field with its default before the store merge, so the saved record
(and the subsequent `GET`) reflects only the request: `name`, `gpa`,
`majors`, `interests` come from the request (or its defaults), regardless
of the existing record.  Only a direct `saveAccount` call with a partial
payload merges just the supplied properties, leaving the rest of the
existing record (here `gpa`, `majors`, `created_at`) unchanged. -/
theorem c1_amended :
    (∀ (L : List Account) (p : ProfileIn) (now : String),
       (∀ a ∈ L, SaneAccount a) → SaneProfileIn p → okField now.data →
       p.user_id ≠ "" →
       ∃ T r, postProfileText (writeAccountsChars L) p now = some T
         ∧ getProfileResp T p.user_id = some r
         ∧ r.name = jsOrOpt p.name ""
         ∧ r.gpa = jsOrOpt p.gpa ""
         ∧ r.majors = p.majors.getD []
         ∧ r.interests = p.interests.getD [])
    ∧ (∀ (L1 : List Account) (a : Account) (L2 : List Account)
         (d : AccountData) (now : String),
       (∀ x ∈ L1 ++ a :: L2, SaneAccount x) → SaneData d → okField now.data →
       a.user_id = d.user_id → d.user_id ∉ L1.map (fun x => x.user_id) →
       d.gpa = none → d.majors = none → d.created_at = none →
       ∃ r, getAccountText
             (saveTextChars (writeAccountsChars (L1 ++ a :: L2)) d now) d.user_id
           = some r
         ∧ r.gpa = a.gpa ∧ r.majors = a.majors ∧ r.created_at = a.created_at
         ∧ r.name = d.name.getD a.name ∧ r.updated_at = now) := by
  constructor
  · intro L p now hL hp hnow hid
    have hd := toAccountData_sane p hp
    obtain ⟨r, hfind, hcases⟩ := saveList_find_total L (toAccountData p) now
    have hread : getAccountText
        (writeAccountsChars (saveList L (toAccountData p) now)) p.user_id = some r := by
      rw [getAccountText, read_write _ (saveList_sane L _ now hL hd hnow)]
      exact hfind
    have hrname : r.name = jsOrOpt p.name "" := by
      rcases hcases with rfl | ⟨a, -, -, rfl⟩
      · show jsOrOpt (some (jsOrOpt p.name "")) "" = _
        rw [jsOrOpt_some_empty]
      · rfl
    have hrgpa : r.gpa = jsOrOpt p.gpa "" := by
      rcases hcases with rfl | ⟨a, -, -, rfl⟩
      · show jsOrOpt (some (jsOrOpt p.gpa "")) "" = _
        rw [jsOrOpt_some_empty]
      · rfl
    have hrmaj : r.majors = p.majors.getD [] := by
      rcases hcases with rfl | ⟨a, -, -, rfl⟩ <;> rfl
    have hrint : r.interests = p.interests.getD [] := by
      rcases hcases with rfl | ⟨a, -, -, rfl⟩ <;> rfl
    refine ⟨writeAccountsChars (saveList L (toAccountData p) now),
      { user_id := r.user_id, name := jsOrStr r.name "", grade := jsOrStr r.grade "",
        gpa := jsOrStr r.gpa "",
        weighted := match r.weighted with | WVal.undef => WVal.b true | w => w,
        sat := jsOrStr r.sat "", act := jsOrStr r.act "", psat := jsOrStr r.psat "",
        majors := r.majors, activities := jsOrStr r.activities "",
        interests := r.interests, careerGoals := jsOrStr r.career_goals "" },
      ?_, ?_, ?_, ?_, hrmaj, hrint⟩
    · rw [postProfileText, if_neg hid, saveTextChars, read_write L hL]
    · rw [getProfileResp, if_neg hid, hread]
    · show jsOrStr r.name "" = jsOrOpt p.name ""
      rw [jsOrStr_self, hrname]
    · show jsOrStr r.gpa "" = jsOrOpt p.gpa ""
      rw [jsOrStr_self, hrgpa]
  · intro L1 a L2 d now hL hd hnow hid hnotin hgpa hmaj hca
    have hamem : a ∈ L1 ++ a :: L2 := by simp
    have hsane2 : ∀ x ∈ L1 ++ mergeAccount a d now :: L2, SaneAccount x := by
      intro x hx
      rcases List.mem_append.mp hx with h | h
      · exact hL x (List.mem_append.mpr (Or.inl h))
      · rcases List.mem_cons.mp h with rfl | h2
        · exact mergeAccount_sane a d now (hL a hamem) hd hnow
        · exact hL x (List.mem_append.mpr (Or.inr (List.mem_cons_of_mem a h2)))
    refine ⟨mergeAccount a d now, ?_, ?_, ?_, ?_, rfl, rfl⟩
    · rw [saveTextChars, read_write _ hL, saveList_replace_first L1 a L2 d now hnotin hid,
        getAccountText, read_write _ hsane2]
      rw [find_append_of_none _ L1 _ (by
        intro x hx
        simp only [decide_eq_false_iff_not]
        intro he
        exact hnotin (List.mem_map.mpr ⟨x, hx, he⟩))]
      simp [List.find?, mergeAccount]
    · show d.gpa.getD a.gpa = a.gpa
      rw [hgpa]
      rfl
    · show d.majors.getD a.majors = a.majors
      rw [hmaj]
      rfl
    · show d.created_at.getD a.created_at = a.created_at
      rw [hca]
      rfl

/-- Witness for the hypotheses of `c1_amended`: the C1 scenario store and a
name-only request (handler path), and a direct partial save over the same
store (store-merge path). -/
theorem c1_amended_witness :
    (∃ T r, postProfileText (writeAccountsChars [aliceAccount]) c1Request "t1" = some T
       ∧ getProfileResp T "u1" = some r
       ∧ r.name = jsOrOpt (some "Alice B") ""
       ∧ r.gpa = jsOrOpt none ""
       ∧ r.majors = (none : Option (List String)).getD []
       ∧ r.interests = (none : Option (List String)).getD [])
    ∧ (∃ r, getAccountText
          (saveTextChars (writeAccountsChars ([] ++ aliceAccount :: []))
            { user_id := "u1", name := some "Alice B" } "t1") "u1"
        = some r
      ∧ r.gpa = aliceAccount.gpa ∧ r.majors = aliceAccount.majors
      ∧ r.created_at = aliceAccount.created_at
      ∧ r.name = (some "Alice B" : Option String).getD aliceAccount.name
      ∧ r.updated_at = "t1") :=
  ⟨c1_amended.1 [aliceAccount] c1Request "t1" (by decide) (by decide) (by decide) (by decide),
   c1_amended.2 [] aliceAccount [] { user_id := "u1", name := some "Alice B" } "t1"
     (by decide) (by decide) (by decide) (by decide) (by decide) rfl rfl rfl⟩

/-- **C4 (amended)** — provided every field value involved is round-trip
safe for the codec (no embedded newlines, trim-invariant, not
quote-wrapped; boolean `weighted`), the upsert invariant holds through the
backing file: a first upsert for an unseen key yields a record with
`created_at = updated_at`, and a second upsert for the same key (with no
`created_at` in its payload) keeps `created_at` and strictly increases
`updated_at` whenever the second timestamp is larger.  (Without the
sanity conditions the invariant fails — see the counterexample.) -/
theorem c4_amended (L : List Account) (d d2 : AccountData) (t1 t2 : String)
    (hL : ∀ a ∈ L, SaneAccount a) (hd : SaneData d) (hd2 : SaneData d2)
    (ht1 : okField t1.data) (ht2 : okField t2.data)
    (hnew : d.user_id ∉ L.map (fun a => a.user_id))
    (hid2 : d2.user_id = d.user_id) (hca : d2.created_at = none)
    (hlt : t1 < t2) :
    ∃ r r2,
      getAccountText (saveTextChars (writeAccountsChars L) d t1) d.user_id = some r
      ∧ getAccountText
          (saveTextChars (saveTextChars (writeAccountsChars L) d t1) d2 t2) d.user_id
          = some r2
      ∧ r.created_at = r.updated_at
      ∧ r2.created_at = r.created_at
      ∧ r.updated_at < r2.updated_at := by
  have hT1 : saveTextChars (writeAccountsChars L) d t1
      = writeAccountsChars (L ++ [newAccount d t1]) := by
    rw [saveTextChars, read_write L hL, saveList_of_not_mem L d t1 hnew]
  have hsane1 : ∀ a ∈ L ++ [newAccount d t1], SaneAccount a := by
    intro a ha
    rcases List.mem_append.mp ha with h | h
    · exact hL a h
    · rcases List.mem_singleton.mp h with rfl
      exact newAccount_sane d t1 hd ht1
  have hnone : ∀ x ∈ L, (fun a => decide (a.user_id = d.user_id)) x = false := by
    intro x hx
    simp only [decide_eq_false_iff_not]
    intro he
    exact hnew (List.mem_map.mpr ⟨x, hx, he⟩)
  have hT2 : saveTextChars (saveTextChars (writeAccountsChars L) d t1) d2 t2
      = writeAccountsChars (L ++ [mergeAccount (newAccount d t1) d2 t2]) := by
    rw [hT1, saveTextChars, read_write _ hsane1,
      saveList_replace_first L (newAccount d t1) [] d2 t2 (by rw [hid2]; exact hnew)
        (by rw [hid2]; rfl)]
  have hsane2 : ∀ a ∈ L ++ [mergeAccount (newAccount d t1) d2 t2], SaneAccount a := by
    intro a ha
    rcases List.mem_append.mp ha with h | h
    · exact hL a h
    · rcases List.mem_singleton.mp h with rfl
      exact mergeAccount_sane _ d2 t2 (newAccount_sane d t1 hd ht1) hd2 ht2
  refine ⟨newAccount d t1, mergeAccount (newAccount d t1) d2 t2, ?_, ?_, rfl, ?_, ?_⟩
  · rw [hT1, getAccountText, read_write _ hsane1, find_append_of_none _ L _ hnone]
    simp [List.find?, newAccount]
  · rw [hT2, getAccountText, read_write _ hsane2, find_append_of_none _ L _ hnone]
    simp [List.find?, mergeAccount, hid2]
  · show d2.created_at.getD (newAccount d t1).created_at = (newAccount d t1).created_at
    rw [hca]
    rfl
  · exact hlt

/-- Witness for the hypotheses of `c4_amended` at concrete inputs. -/
theorem c4_amended_witness :
    ∃ r r2,
      getAccountText
          (saveTextChars (writeAccountsChars [])
            { user_id := "u1", name := some "n" } "2020") "u1" = some r
      ∧ getAccountText
          (saveTextChars
            (saveTextChars (writeAccountsChars [])
              { user_id := "u1", name := some "n" } "2020")
            { user_id := "u1", gpa := some "4.0" } "2021") "u1" = some r2
      ∧ r.created_at = r.updated_at
      ∧ r2.created_at = r.created_at
      ∧ r.updated_at < r2.updated_at :=
  c4_amended [] { user_id := "u1", name := some "n" }
    { user_id := "u1", gpa := some "4.0" } "2020" "2021"
    (by decide) (by decide) (by decide) (by decide) (by decide) (by decide)
    rfl rfl (by rw [String.lt_iff_toList_lt]; decide)

/-- **C5 (amended)** — provided every save payload and timestamp is
round-trip safe for the codec, identifiers stay pairwise distinct through
any sequence of upserts on the backing file: each upsert replaces the
first matching record in place or appends a record with an unseen
identifier.  (With newline-injecting field values the re-read store can
hold duplicate identifiers — see the counterexample.) -/
theorem c5_amended (ds : List (AccountData × String)) (L : List Account)
    (hL : ∀ a ∈ L, SaneAccount a) (hnodup : (L.map (fun a => a.user_id)).Nodup)
    (hds : ∀ x ∈ ds, SaneData x.1 ∧ okField x.2.data) :
    ((readAccountsText (applySaves (writeAccountsChars L) ds)).map
      (fun a => a.user_id)).Nodup := by
  induction ds generalizing L with
  | nil =>
    rw [applySaves, read_write L hL]
    exact hnodup
  | cons x ds ih =>
    obtain ⟨d, now⟩ := x
    obtain ⟨hd, hnow⟩ := hds (d, now) (List.mem_cons_self _ _)
    rw [applySaves, show saveTextChars (writeAccountsChars L) d now
        = writeAccountsChars (saveList L d now) by
      rw [saveTextChars, read_write L hL]]
    exact ih (saveList L d now) (saveList_sane L d now hL hd hnow)
      (saveList_nodup L d now hnodup)
      (fun y hy => hds y (List.mem_cons_of_mem _ hy))

/-- Witness for the hypotheses of `c5_amended` at concrete inputs. -/
theorem c5_amended_witness :
    ((readAccountsText
        (applySaves (writeAccountsChars [aliceAccount])
          [({ user_id := "u1", name := some "n" }, "2020"),
           ({ user_id := "u2", name := some "m" }, "2021")])).map
      (fun a => a.user_id)).Nodup :=
  c5_amended [({ user_id := "u1", name := some "n" }, "2020"),
      ({ user_id := "u2", name := some "m" }, "2021")]
    [aliceAccount] (by decide) (by decide) (by decide)

/-- **C10 (amended)** — the weighted-GPA flag defaults to `true` when a
save omits it (the handler supplies `true`, so new records store the
boolean `true`), and reading a profile for an identifier with no stored
record returns `weighted = true`; but a stored record whose `weighted`
cell is empty reads back as the string `""` and the `GET` returns that
string unchanged — only a record whose `weighted` property is `undefined`
(header column absent) is replaced by `true`. -/
theorem c10_amended :
    (∀ (d : AccountData) (now : String), d.weighted = none →
        (newAccount d now).weighted = WVal.b true)
    ∧ (∀ (p : ProfileIn), p.weighted = none →
        (toAccountData p).weighted = some true)
    ∧ (∀ (text : List Char) (uid : String), uid ≠ "" → getAccountText text uid = none →
        getProfileResp text uid
          = some { user_id := uid, name := "", grade := "", gpa := "",
                   weighted := WVal.b true, sat := "", act := "", psat := "",
                   majors := [], activities := "", interests := [], careerGoals := "" })
    ∧ (∀ (text : List Char) (uid v : String) (a : Account), uid ≠ "" →
        getAccountText text uid = some a → a.weighted = WVal.s v →
        (getProfileResp text uid).map (fun r => r.weighted) = some (WVal.s v)) := by
  refine ⟨?_, ?_, ?_, ?_⟩
  · intro d now hw
    rw [newAccount, hw]
    rfl
  · intro p hw
    rw [toAccountData, hw]
    rfl
  · intro text uid hne hget
    rw [getProfileResp, if_neg hne, hget]
  · intro text uid v a hne hget hw
    rw [getProfileResp, if_neg hne, hget]
    simp [hw]

/-- Witness for the hypotheses of `c10_amended` at concrete inputs. -/
theorem c10_amended_witness :
    (newAccount { user_id := "u1" } "t").weighted = WVal.b true
    ∧ (getProfileResp (writeAccountsChars []) "zz").map (fun r => r.weighted)
        = some (WVal.b true) := by
  constructor
  · exact c10_amended.1 { user_id := "u1" } "t" rfl
  · have h := c10_amended.2.2.1 (writeAccountsChars []) "zz" (by decide) (by decide)
    rw [h]
    rfl

/-- Witness for the hypotheses of `c6_pagination` at concrete inputs. -/
theorem c6_pagination_witness :
    (1 : Nat) ≤ 2
    ∧ (collegesQuery [[("name", "A")], [("name", "B")], [("name", "C")]] none 2 2).results.length
        = min 2 ((collegesQuery [[("name", "A")], [("name", "B")], [("name", "C")]] none 2 2).total
            - (2 - 1) * 2) :=
  ⟨by decide,
   (c6_pagination [[("name", "A")], [("name", "B")], [("name", "C")]] none 2 2
     (by decide) (by decide)).2.1⟩

end PathPal
